import Mathlib

/-!
Verification development for the ingestion pipeline of
`src/Q1/data_processor.py` (fetch / transform / store / orchestrate) and the
consumer-side JSON decoding of `src/Q1/main.py`.

The Python code is shallowly embedded: JSON payloads become the inductive
type `Json`, the module-level functions become Lean functions of the same
names, exceptions become `Except`, the MySQL store becomes a finite map from
table names to lists of rows, and the network becomes an explicit
`Nat → TransportResult` oracle giving the outcome of each HTTP attempt.
Wall-clock concerns (backoff delays, jitter, thread interleaving) affect
timing only, never the values computed, and are not modelled; the thread
pool is modelled by processing the submitted units in submission order,
which determines the same report dictionary and the same per-table rows as
any completion order, because the report is keyed by label and each unit
works on its own table through its own engine.
-/

/-! ## JSON values

`Json` models the Python values that flow through the pipeline
(`response.json()` output, record field values).  Numbers are modelled as
integers — no claim under verification involves fractional values.  `obj`
models a Python dict as a key/value sequence with distinct keys in
insertion order.  The type is presented as a mutual inductive (with its own
list types) so that every function over it is structurally recursive, hence
executable and kernel-reducible. -/

mutual
inductive Json where
  | null : Json
  | bool (b : Bool) : Json
  | num (n : Int) : Json
  | str (s : String) : Json
  | arr (xs : JsonList) : Json
  | obj (kvs : JsonObj) : Json

inductive JsonList where
  | nil : JsonList
  | cons (hd : Json) (tl : JsonList) : JsonList

inductive JsonObj where
  | nil : JsonObj
  | cons (k : String) (v : Json) (tl : JsonObj) : JsonObj
end

def JsonList.ofList : List Json → JsonList
  | [] => .nil
  | x :: xs => .cons x (JsonList.ofList xs)

def JsonList.toList : JsonList → List Json
  | .nil => []
  | .cons x xs => x :: xs.toList

def JsonObj.ofList : List (String × Json) → JsonObj
  | [] => .nil
  | (k, v) :: kvs => .cons k v (JsonObj.ofList kvs)

def JsonObj.toList : JsonObj → List (String × Json)
  | .nil => []
  | .cons k v kvs => (k, v) :: kvs.toList

/-- List-literal notation helper: a JSON array from a Lean list. -/
def jarr (xs : List Json) : Json := Json.arr (JsonList.ofList xs)

/-- Dict-literal notation helper: a JSON object from a Lean list. -/
def jobj (kvs : List (String × Json)) : Json := Json.obj (JsonObj.ofList kvs)

theorem jlistToListOfList : ∀ xs : List Json, (JsonList.ofList xs).toList = xs
  | [] => rfl
  | x :: xs => by simp [JsonList.ofList, JsonList.toList, jlistToListOfList xs]

theorem jobjToListOfList : ∀ kvs : List (String × Json), (JsonObj.ofList kvs).toList = kvs
  | [] => rfl
  | (k, v) :: kvs => by simp [JsonObj.ofList, JsonObj.toList, jobjToListOfList kvs]

mutual
/-- Boolean equality on JSON values (Python `==`). -/
def Json.beq : Json → Json → Bool
  | .null, .null => true
  | .bool a, .bool c => a == c
  | .num a, .num c => a == c
  | .str a, .str c => a == c
  | .arr xs, .arr ys => JsonList.beq xs ys
  | .obj kvs, .obj kvs2 => JsonObj.beq kvs kvs2
  | _, _ => false

def JsonList.beq : JsonList → JsonList → Bool
  | .nil, .nil => true
  | .cons x xs, .cons y ys => Json.beq x y && JsonList.beq xs ys
  | _, _ => false

def JsonObj.beq : JsonObj → JsonObj → Bool
  | .nil, .nil => true
  | .cons k v r, .cons k2 v2 r2 => k == k2 && Json.beq v v2 && JsonObj.beq r r2
  | _, _ => false
end

theorem jsonSizeOfPos : ∀ j : Json, 0 < sizeOf j := by
  intro j; cases j <;> simp_arith

theorem jlistSizeOfPos : ∀ xs : JsonList, 0 < sizeOf xs := by
  intro xs; cases xs <;> simp_arith

theorem jobjSizeOfPos : ∀ kvs : JsonObj, 0 < sizeOf kvs := by
  intro kvs; cases kvs <;> simp_arith

theorem jsonBeqSpec : ∀ n : Nat,
    (∀ a b : Json, sizeOf a ≤ n → (Json.beq a b = true ↔ a = b)) ∧
    (∀ xs ys : JsonList, sizeOf xs ≤ n → (JsonList.beq xs ys = true ↔ xs = ys)) ∧
    (∀ r1 r2 : JsonObj, sizeOf r1 ≤ n → (JsonObj.beq r1 r2 = true ↔ r1 = r2)) := by
  intro n
  induction n with
  | zero =>
    refine ⟨fun a b h => ?_, fun xs ys h => ?_, fun r1 r2 h => ?_⟩
    · exact absurd (lt_of_lt_of_le (jsonSizeOfPos a) h) (by simp)
    · exact absurd (lt_of_lt_of_le (jlistSizeOfPos xs) h) (by simp)
    · exact absurd (lt_of_lt_of_le (jobjSizeOfPos r1) h) (by simp)
  | succ n ih =>
    obtain ⟨ihj, ihl, iho⟩ := ih
    refine ⟨fun a b h => ?_, fun xs ys h => ?_, fun r1 r2 h => ?_⟩
    · cases a with
      | null => cases b <;> simp [Json.beq]
      | bool x => cases b <;> simp [Json.beq]
      | num x => cases b <;> simp [Json.beq]
      | str x => cases b <;> simp [Json.beq]
      | arr xs =>
        cases b <;> simp [Json.beq]
        exact ihl xs _ (by simp_arith at h; omega)
      | obj kvs =>
        cases b <;> simp [Json.beq]
        exact iho kvs _ (by simp_arith at h; omega)
    · cases xs with
      | nil => cases ys <;> simp [JsonList.beq]
      | cons x xs =>
        cases ys with
        | nil => simp [JsonList.beq]
        | cons y ys =>
          have h1 := ihj x y (by simp_arith at h; omega)
          have h2 := ihl xs ys (by have := jsonSizeOfPos x; simp_arith at h; omega)
          simp [JsonList.beq, h1, h2]
    · cases r1 with
      | nil => cases r2 <;> simp [JsonObj.beq]
      | cons k v r =>
        cases r2 with
        | nil => simp [JsonObj.beq]
        | cons k2 v2 rr =>
          have h1 := ihj v v2 (by simp_arith at h; omega)
          have h2 := iho r rr (by have := jsonSizeOfPos v; simp_arith at h; omega)
          simp [JsonObj.beq, h1, h2]
          tauto

instance : DecidableEq Json := fun a b =>
  decidable_of_iff (Json.beq a b = true) ((jsonBeqSpec (sizeOf a)).1 a b le_rfl)

instance : DecidableEq JsonList := fun a b =>
  decidable_of_iff (JsonList.beq a b = true) ((jsonBeqSpec (sizeOf a)).2.1 a b le_rfl)

instance : DecidableEq JsonObj := fun a b =>
  decidable_of_iff (JsonObj.beq a b = true) ((jsonBeqSpec (sizeOf a)).2.2 a b le_rfl)

instance : BEq Json := ⟨Json.beq⟩

/-- Python truthiness of a JSON value (`if not raw_data: ...`). -/
def Json.truthy : Json → Bool
  | .null => false
  | .bool b => b
  | .num n => n != 0
  | .str s => s != ""
  | .arr .nil => false
  | .arr (.cons _ _) => true
  | .obj .nil => false
  | .obj (.cons _ _ _) => true

/-- `isinstance(v, (list, dict))` — a composite (non-scalar) value. -/
def Json.isComposite : Json → Bool
  | .arr _ => true
  | .obj _ => true
  | _ => false

/-- A scalar value: neither a list nor a dict. -/
def Json.isScalar (j : Json) : Bool := !j.isComposite

/-- Python dict/assoc-list lookup (`d[k]` hit, `d.get(k)`) on flat records. -/
def alistLookup {α : Type} (k : String) : List (String × α) → Option α
  | [] => none
  | (k2, v) :: rest => if k2 = k then some v else alistLookup k rest

/-- Lookup inside a JSON object (Python `d[k]` / `d.get(k)` on a payload). -/
def JsonObj.lookup (k : String) : JsonObj → Option Json
  | .nil => none
  | .cons k2 v rest => if k2 = k then some v else JsonObj.lookup k rest

/-- The keys of a JSON object, in order. -/
def JsonObj.keys : JsonObj → List String
  | .nil => []
  | .cons k _ rest => k :: rest.keys

/-! ## `ApiConfig` (`src/Q1/data_processor.py`, class `ApiConfig`) -/

/-- Configuration for one API endpoint. -/
structure ApiConfig where
  url : String
  type : String
  query : Option String
  params : List (String × String)
  headers : List (String × String)
  label : String
  table_name : String
  retry_attempts : Nat
  timeout : Nat
deriving DecidableEq, Repr

/-- `url.split('//')[-1].split('/')[0]` — the default label. -/
def defaultLabel (url : String) : String :=
  (((url.splitOn "//").getLastD "").splitOn "/").headD ""

/-- `label.lower().replace('.', '_').replace('-', '_')` — the default table
name. -/
def sanitizeLabel (label : String) : String :=
  ((label.toLower).replace "." "_").replace "-" "_"

/-- `label or url.split('//')[-1].split('/')[0]`. -/
def derivedLabel (url : String) (label : Option String) : String :=
  match label with
  | some l => if l = "" then defaultLabel url else l
  | none => defaultLabel url

/-- `table_name or self.label.lower().replace('.', '_').replace('-', '_')`. -/
def derivedTable (lbl : String) (table_name : Option String) : String :=
  match table_name with
  | some t => if t = "" then sanitizeLabel lbl else t
  | none => sanitizeLabel lbl

/-- `ApiConfig.__init__`: derives `label`/`table_name` (Python `or` treats
the empty string like `None`), then validates; a `ValueError` becomes
`Except.error`.  Arguments appear in the Python parameter order. -/
def mkApiConfig (url : String) (api_type : String) (query : Option String)
    (label : Option String) (params : List (String × String))
    (headers : List (String × String)) (table_name : Option String)
    (retry_attempts : Nat) (timeout : Nat) : Except String ApiConfig :=
  if url = "" then
    .error "URL is required for ApiConfig"
  else if api_type ≠ "REST" ∧ api_type ≠ "GraphQL" then
    .error "api_type must be REST or GraphQL"
  else if api_type = "GraphQL" ∧ query.getD "" = "" then
    .error "Query is required for GraphQL API"
  else
    .ok ⟨url, api_type, query, params, headers, derivedLabel url label,
      derivedTable (derivedLabel url label) table_name, retry_attempts, timeout⟩

/-! ## Fetcher model

`fetch_data` is decorated with
`backoff.on_exception(backoff.expo, (aiohttp.ClientError, asyncio.TimeoutError),
 max_tries=3, jitter=backoff.full_jitter)`.
The network is an oracle `transport : Nat → TransportResult` giving the
outcome attempt `k` would have: either a raised transport exception or an
HTTP response (status plus decoded JSON body).  Backoff delays and jitter
only schedule the attempts in time; they do not change which attempts occur
or what they return, so they are not modelled. -/

/-- The retryable transport exceptions (`aiohttp.ClientError`,
`asyncio.TimeoutError`). -/
inductive NetErr where
  | clientError : NetErr
  | timeoutError : NetErr
deriving DecidableEq, Repr

/-- What the HTTP layer does on one attempt: raise, or return a response. -/
inductive TransportResult where
  | raise (e : NetErr) : TransportResult
  | resp (status : Nat) (body : Json) : TransportResult

/-- `_do_fetch`: dispatches on `api.type`.  Both branches treat a non-200
status as `return api, None` and a 200 as `return api, data`; raising is
propagated.  A type that is neither `"REST"` nor `"GraphQL"` falls off the
end of the function, which in Python returns `None` instead of a pair —
modelled as `.ok none`. -/
def do_fetch (api : ApiConfig) (t : TransportResult) :
    Except NetErr (Option (ApiConfig × Option Json)) :=
  if api.type = "REST" then
    match t with
    | .raise e => .error e
    | .resp status body =>
        .ok (some (if status ≠ 200 then (api, none) else (api, some body)))
  else if api.type = "GraphQL" then
    match t with
    | .raise e => .error e
    | .resp status body =>
        .ok (some (if status ≠ 200 then (api, none) else (api, some body)))
  else
    .ok none

/-- The body of `fetch_data`: `try: return await _do_fetch(...)
except Exception as e: return api, None`.  The catch-all `except` turns
every raised exception into a normal `(api, None)` return, so the body
itself never raises. -/
def fetch_body (api : ApiConfig) (t : TransportResult) :
    Except NetErr (Option (ApiConfig × Option Json)) :=
  match do_fetch api t with
  | .error _ => .ok (some (api, none))
  | .ok r => .ok r

/-- `backoff.on_exception` with retry budget `fuel + 1` total calls: call
`f` on attempt number `k`; a normal return ends the loop, a raised listed
exception is retried while budget remains and re-raised on the last try.
Returns the number of attempts actually performed and the final outcome. -/
def backoffLoop (f : Nat → Except NetErr α) : Nat → Nat → Nat × Except NetErr α
  | fuel, k =>
    match f k with
    | .ok a => (k + 1, .ok a)
    | .error e =>
      match fuel with
      | 0 => (k + 1, .error e)
      | fuel' + 1 => backoffLoop f fuel' (k + 1)

/-- `fetch_data`: the decorated function, `max_tries=3` (a hardcoded
constant — `api.retry_attempts` is never read by the source). -/
def fetch_data (api : ApiConfig) (transport : Nat → TransportResult) :
    Nat × Except NetErr (Option (ApiConfig × Option Json)) :=
  backoffLoop (fun k => fetch_body api (transport k)) 2 0

/-! ## Normalizer model (`transform_data`)

The body of `transform_data` runs inside `try: ... except Exception: return []`,
so Python-level exceptions (KeyError, TypeError, AttributeError, and the
errors `pd.json_normalize` raises on non-dict elements) are modelled with an
`Except PyErr` monad that the wrapper catches. -/

/-- Python exceptions that the `transform_data` body can raise. -/
inductive PyErr where
  | keyError : PyErr
  | typeError : PyErr
  | attributeError : PyErr
deriving DecidableEq, Repr

/-- Substring test, for Python `needle in haystack` on strings. -/
def strContains (haystack needle : String) : Bool :=
  needle = "" || (haystack.splitOn needle).length ≥ 2

/-- Python `k in v`: key test on dicts, membership on lists, substring on
strings; `TypeError` otherwise. -/
def pyContains (v : Json) (k : String) : Except PyErr Bool :=
  match v with
  | .obj kvs => .ok (kvs.keys.contains k)
  | .arr xs => .ok (xs.toList.contains (Json.str k))
  | .str s => .ok (strContains s k)
  | _ => .error .typeError

/-- Python `v.get(k, dflt)`: only dicts have `.get`; anything else raises
`AttributeError`. -/
def pyGetDefault (v : Json) (k : String) (dflt : Json) : Except PyErr Json :=
  match v with
  | .obj kvs => .ok ((kvs.lookup k).getD dflt)
  | _ => .error .attributeError

/-- Python `v[key]` subscription as used by the transform: dict with string
key (KeyError on a miss), list with integer index (an out-of-range index
raises; folded into `keyError`, it is never reached by the claims);
`TypeError` otherwise. -/
def pySubscript (v : Json) (key : Json) : Except PyErr Json :=
  match v, key with
  | .obj kvs, .str k =>
    match kvs.lookup k with
    | some w => .ok w
    | none => .error .keyError
  | .arr xs, .num i =>
    match (xs.toList.drop i.toNat).head? with
    | some w => if 0 ≤ i then .ok w else .error .keyError
    | none => .error .keyError
  | _, _ => .error .typeError

/-- Python `next(iter(v), None)`: first dict key, first list element, first
character of a string; `TypeError` for non-iterables. -/
def pyFirstKey (v : Json) : Except PyErr (Option Json) :=
  match v with
  | .obj kvs => .ok (kvs.keys.head?.map Json.str)
  | .arr xs => .ok xs.toList.head?
  | .str s => .ok (s.data.head?.map (fun c => Json.str (String.mk [c])))
  | _ => .error .typeError

mutual
/-- One entry of the flattening performed by `pd.json_normalize` (default
`sep='.'`, unbounded depth): a dict value is expanded into dotted keys,
anything else (scalars and lists alike) is kept as the value. -/
def flattenEntry (k : String) : Json → List (String × Json)
  | Json.obj kvs => (flattenJObj kvs).map (fun p => (k ++ "." ++ p.1, p.2))
  | v => [(k, v)]

/-- Flattening of a whole dict, entry by entry. -/
def flattenJObj : JsonObj → List (String × Json)
  | .nil => []
  | .cons k v tl => flattenEntry k v ++ flattenJObj tl
end

/-- Accumulate column names in first-occurrence order (how pandas unions
the key sets of a list of dicts). -/
def addCols (acc : List String) (ks : List String) : List String :=
  ks.foldl (fun a k => if a.contains k then a else a ++ [k]) acc

/-- A flat record: one table row as a mapping from column name to value. -/
abbrev Rec := List (String × Json)

/-- Columns of `pd.json_normalize` / `pd.DataFrame` over a record list:
the union of all key sets in first-occurrence order. -/
def dfColumns (recs : List Rec) : List String :=
  recs.foldl (fun a r => addCols a (r.map Prod.fst)) []

/-- Flatten every element of the list; `pd.json_normalize` raises when an
element is not a dict. -/
def toRecords : List Json → Except PyErr (List Rec)
  | [] => .ok []
  | j :: rest =>
    match j with
    | Json.obj kvs => (toRecords rest).map (fun rs => flattenJObj kvs :: rs)
    | _ => .error .attributeError

/-- `pd.json_normalize(raw_data)` over a list, followed by
`df.where(pd.notnull(df), None)` and `df.to_dict(orient='records')`:
every element must be a dict (pandas raises otherwise), nested dicts are
flattened with dotted keys, and each output record carries the full column
set with `None` (here `Json.null`) for the keys it lacks. -/
def jsonNormalize (xs : List Json) : Except PyErr (List Rec) := do
  let flat ← toRecords xs
  let cols := dfColumns flat
  pure (flat.map (fun r => cols.map (fun c =>
    (c, match alistLookup c r with
        | some v => v
        | none => Json.null))))

/-- The `for key in ['results', 'items', 'data']: ... break / else` search:
the first key in the preference list that is present and maps to a list. -/
def findListKey (kvs : JsonObj) : List String → Option JsonList
  | [] => none
  | k :: ks =>
    match kvs.lookup k with
    | some (Json.arr xs) => some xs
    | _ => findListKey kvs ks

/-- The body of `transform_data` after the emptiness guard: GraphQL
envelope unwrapping, the `isinstance` shape checks, the list-bearing-key
search on dicts, then `pd.json_normalize`. -/
def transformBody (raw0 : Json) (api_config : ApiConfig) : Except PyErr (List Rec) := do
  let raw ←
    if api_config.type = "GraphQL" then do
      let hasData ← pyContains raw0 "data"
      if hasData then do
        let inner ← pyGetDefault raw0 "data" (jobj [])
        let hasChars ← pyContains inner "characters"
        if hasChars then do
          let d ← pySubscript raw0 (Json.str "data")
          let c ← pySubscript d (Json.str "characters")
          pySubscript c (Json.str "results")
        else do
          let hasCountries ← pyContains inner "countries"
          if hasCountries then do
            let d ← pySubscript raw0 (Json.str "data")
            pySubscript d (Json.str "countries")
          else do
            let d ← pySubscript raw0 (Json.str "data")
            let firstKey ← pyFirstKey d
            match firstKey with
            | some k => if k.truthy then pySubscript d k else pure raw0
            | none => pure raw0
      else
        pure raw0
    else
      pure raw0
  match raw with
  | Json.arr xs => jsonNormalize xs.toList
  | Json.obj kvs =>
    match findListKey kvs ["results", "items", "data"] with
    | some xs => jsonNormalize xs.toList
    | none => jsonNormalize [Json.obj kvs]
  | _ => pure []

/-- `transform_data`: empty/falsy payloads give `[]` with a warning; any
exception in the body is caught and gives `[]`. -/
def transform_data (raw_data : Json) (api_config : ApiConfig) : List Rec :=
  if raw_data.truthy = false then []
  else
    match transformBody raw_data api_config with
    | .ok recs => recs
    | .error _ => []

def cfgGqlScratch : ApiConfig := ⟨"http://g", "GraphQL", some "q", [], [], "g", "g", 3, 30⟩

def cfgRestScratch : ApiConfig := ⟨"http://x", "REST", none, [], [], "s", "t", 3, 30⟩

/-! ## `json.dumps`

`store_data` serializes composite cell values with `json.dumps(x)` (default
options: item separator `", "`, key separator `": "`, insertion order).
The output is modelled as a character list.  Simplification, documented
here once: only `"` and `\` are escaped; `json.dumps` additionally writes
control and non-ASCII characters as `\uXXXX` escapes, a transport encoding
that changes the stored bytes but not the decoded value, and none of the
string constants appearing in this development contain such characters. -/

def digitChar (n : Nat) : Char := Char.ofNat (48 + n)

/-- Decimal digits of `n`, most significant first; `fuel` bounds the
recursion depth (any `fuel > n` is enough, see `natDigitsF_val`). -/
def natDigitsF : Nat → Nat → List Char
  | 0, _ => []
  | fuel + 1, n =>
    if n < 10 then [digitChar n]
    else natDigitsF fuel (n / 10) ++ [digitChar (n % 10)]

def natDigits (n : Nat) : List Char := natDigitsF (n + 1) n

/-- Decimal representation of an integer (`repr` of a Python int). -/
def intDigits (i : Int) : List Char :=
  if i < 0 then '-' :: natDigits i.natAbs else natDigits i.toNat

def escapeChar (c : Char) : List Char :=
  if c = '"' ∨ c = '\\' then ['\\', c] else [c]

def escapeChars : List Char → List Char
  | [] => []
  | c :: cs => escapeChar c ++ escapeChars cs

/-- The `"key": ` prefix of one object entry. -/
def dumpKey (k : String) : List Char :=
  '"' :: (escapeChars k.data ++ ['"', ':', ' '])

mutual
/-- `json.dumps` of one JSON value, as characters. -/
def dumpChars : Json → List Char
  | .null => "null".data
  | .bool true => "true".data
  | .bool false => "false".data
  | .num i => intDigits i
  | .str s => '"' :: (escapeChars s.data ++ ['"'])
  | .arr xs => '[' :: (dumpJsonList xs ++ [']'])
  | .obj kvs => '\x7b' :: (dumpJsonObj kvs ++ ['\x7d'])

/-- Elements of an array, `", "`-separated. -/
def dumpJsonList : JsonList → List Char
  | .nil => []
  | .cons x xs => dumpChars x ++ dumpListTail xs

def dumpListTail : JsonList → List Char
  | .nil => []
  | .cons x xs => ',' :: ' ' :: (dumpChars x ++ dumpListTail xs)

/-- Entries of an object, `", "`-separated, each `"key": value`. -/
def dumpJsonObj : JsonObj → List Char
  | .nil => []
  | .cons k v kvs => dumpKey k ++ dumpChars v ++ dumpObjTail kvs

def dumpObjTail : JsonObj → List Char
  | .nil => []
  | .cons k v kvs => ',' :: ' ' :: (dumpKey k ++ dumpChars v ++ dumpObjTail kvs)
end

/-- `json.dumps` as a string. -/
def dumps (j : Json) : String := String.mk (dumpChars j)

/-! ## StorageWriter model (`store_data`)

The MySQL database is a map from table names to lists of rows; a row maps
column names to cells.  `pd.DataFrame(data)` aligns the records on the
union of their keys, filling missing cells with NaN (`Cell.nan` — distinct
from a present `None`, which is `Cell.val Json.null`).  `to_sql` with
`if_exists='append'` creates a missing table and inserts, `'replace'` drops
any existing table, recreates it and inserts.  A write failure while
storing chunk `i` is modelled by the oracle `fail : Nat → Bool`. -/

/-- One DataFrame/table cell. -/
inductive Cell where
  | val (j : Json) : Cell
  | nan : Cell
deriving DecidableEq

/-- One stored row: column name to cell, in column order. -/
abbrev Row := List (String × Cell)

/-- The database: table name to rows, `none` when the table does not exist. -/
abbrev DB := String → Option (List Row)

def DB.set (db : DB) (t : String) (rows : List Row) : DB :=
  fun t2 => if t2 = t then some rows else db t2

def emptyDB : DB := fun _ => none

/-- `pd.DataFrame(data)`: one aligned row per record. -/
def alignRow (cols : List String) (r : Rec) : Row :=
  cols.map (fun c =>
    (c, match alistLookup c r with
        | some v => Cell.val v
        | none => Cell.nan))

def cellComposite : Cell → Bool
  | .val v => v.isComposite
  | .nan => false

/-- `df[col].apply(lambda x: isinstance(x, (list, dict))).any()`. -/
def colComposite (rows : List Row) (c : String) : Bool :=
  rows.any (fun r =>
    match alistLookup c r with
    | some cell => cellComposite cell
    | none => false)

/-- `lambda x: json.dumps(x) if x is not None else None` applied to one
cell.  NaN is not `None`, and `json.dumps(float('nan'))` is `'NaN'`. -/
def serializeCell : Cell → Cell
  | .val Json.null => .val Json.null
  | .val v => .val (Json.str (dumps v))
  | .nan => .val (Json.str "NaN")

/-- The DataFrame `store_data` hands to `to_sql`: records aligned on the
column union, then every column containing a composite value mapped
through the JSON-dumps lambda. -/
def serializeDF (data : List Rec) : List Row :=
  let cols := dfColumns data
  let rows := data.map (alignRow cols)
  rows.map (fun r => r.map (fun kc =>
    if colComposite rows kc.1 then (kc.1, serializeCell kc.2) else kc))

inductive WriteMode where
  | replace : WriteMode
  | append : WriteMode
deriving DecidableEq

/-- `chunk.to_sql(..., if_exists=mode, ...)`: append creates a missing
table; replace drops and recreates. -/
def commitChunk (db : DB) (t : String) (mode : WriteMode) (chunk : List Row) : DB :=
  match mode with
  | .replace => db.set t chunk
  | .append => db.set t ((db t).getD [] ++ chunk)

/-- The chunk loop `for i in range(0, total_rows, chunk_size)` with
`chunk_size = 1000`: chunk number `idx` covers rows `[1000*idx, 1000*idx+1000)`
and is written with `if_exists='append' if i > 0 else if_exists`.  An
exception from `to_sql` (the `fail idx` oracle) aborts the loop — the
enclosing `except` then returns `False` — leaving previously committed
chunks in place.  `fuel` bounds the recursion (any `fuel ≥ rows.length` is
enough; each step consumes at least one row). -/
def storeLoopF (t : String) (mode0 : WriteMode) (fail : Nat → Bool) :
    Nat → List Row → Nat → DB → Bool × DB
  | _, [], _, db => (true, db)
  | 0, _ :: _, _, db => (true, db)
  | fuel + 1, rows@(_ :: _), idx, db =>
    if fail idx then (false, db)
    else
      storeLoopF t mode0 fail fuel (rows.drop 1000) (idx + 1)
        (commitChunk db t (if idx = 0 then mode0 else .append) (rows.take 1000))

/-- The successive `len(chunk)` values of the same loop. -/
def chunkSizes : Nat → List Row → List Nat
  | _, [] => []
  | 0, _ :: _ => []
  | fuel + 1, rows@(_ :: _) => (rows.take 1000).length :: chunkSizes fuel (rows.drop 1000)

/-- The chunk sizes depend only on the row count; this arithmetic mirror of
`chunkSizes` makes them computable from the count alone. -/
def chunkSizesN : Nat → Nat → List Nat
  | _, 0 => []
  | 0, _ + 1 => []
  | fuel + 1, n + 1 => min 1000 (n + 1) :: chunkSizesN fuel (n + 1 - 1000)

/-- `store_data`: empty input returns `False` without touching the store;
otherwise build the DataFrame, serialize composite columns, pick
`if_exists = 'replace' if api_config.table_name in inspector.get_table_names()
else 'append'`, and run the chunk loop. -/
def store_data (data : List Rec) (api_config : ApiConfig) (db : DB)
    (fail : Nat → Bool) : Bool × DB :=
  if data.isEmpty then (false, db)
  else
    let df := serializeDF data
    let mode0 : WriteMode :=
      if (db api_config.table_name).isSome then .replace else .append
    storeLoopF api_config.table_name mode0 fail df.length df 0 db

/-- `process_data_in_thread_pool`: transform, store if non-empty, return
the record count on success and 0 on any failure (its own `except` catches
whatever escapes, but `transform_data` and `store_data` already return
rather than raise). -/
def process_data_in_thread_pool (api_config : ApiConfig) (raw : Json) (db : DB)
    (fail : Nat → Bool) : Nat × DB :=
  let transformed := transform_data raw api_config
  if transformed.isEmpty then (0, db)
  else
    let r := store_data transformed api_config db fail
    if r.1 then (transformed.length, r.2) else (0, r.2)

/-! ## Orchestrator model (`process_apis`)

`asyncio.gather(*tasks, return_exceptions=True)` yields the fetch results
in task order; each result with a truthy payload is submitted to the thread
pool, and the submission loop then collects `future.result()` into the
`results` dict in submission order.  Persistence failures are injected per
table via `fail : String → Nat → Bool` (table name, chunk number). -/

/-- Assignment `results[k] = v` on the insertion-ordered report dict. -/
def dictInsert (d : List (String × Nat)) (k : String) (v : Nat) : List (String × Nat) :=
  if d.any (fun e => e.1 == k) then d.map (fun e => if e.1 == k then (k, v) else e)
  else d ++ [(k, v)]

/-- The submission loop over `api_results`: an element that is an exception
is skipped (`continue`); an element that is Python `None` (the `_do_fetch`
fall-through) fails to unpack into `api_config, raw_data` and raises
`TypeError` out of `process_apis`; a pair is submitted iff its payload is
truthy. -/
def collectFutures : List (Except NetErr (Option (ApiConfig × Option Json))) →
    Except PyErr (List (ApiConfig × Json))
  | [] => .ok []
  | .error _ :: rest => collectFutures rest
  | .ok none :: _ => .error .typeError
  | .ok (some (cfg, payload)) :: rest => do
    let fs ← collectFutures rest
    match payload with
    | some j => if j.truthy then pure ((cfg, j) :: fs) else pure fs
    | none => pure fs

/-- `process_apis`: fetch every source, submit the truthy-payload outcomes
as transform+store units, and collect `results[api_config.label] = row_count`
per completed unit.  Returns the report dict and the final database. -/
def process_apis (sources : List (ApiConfig × (Nat → TransportResult))) (db0 : DB)
    (fail : String → Nat → Bool) : Except PyErr (List (String × Nat) × DB) := do
  let api_results := sources.map (fun s => (fetch_data s.1 s.2).2)
  let futures ← collectFutures api_results
  pure (futures.foldl (fun acc cf =>
    let r := process_data_in_thread_pool cf.1 cf.2 acc.2 (fail cf.1.table_name)
    (dictInsert acc.1 cf.1.label r.1, r.2)) ([], db0))

/-- Whether a source's fetch outcome carries a truthy payload (the
submission criterion `if raw_data:`). -/
def truthyPayload (s : ApiConfig × (Nat → TransportResult)) : Bool :=
  match (fetch_data s.1 s.2).2 with
  | .ok (some (_, some j)) => j.truthy
  | _ => false

/-! ## `json.loads` and the consumer decode of `main.py` (`get_table_data`)

A recursive-descent parser for the grammar `json.dumps` emits (JSON values
with arbitrary whitespace between tokens).  `fuel` bounds the recursion
depth; `loads` supplies fuel that is always sufficient (see the round-trip
theorems). -/

def isWsChar (c : Char) : Bool := c = ' ' || c = '\t' || c = '\n' || c = '\r'

def skipWs : List Char → List Char
  | [] => []
  | c :: cs => if isWsChar c then skipWs cs else c :: cs

/-- Parse the remainder of a quoted string (opening `"` already consumed):
a backslash escapes the next character, an unescaped `"` closes. -/
def pString : List Char → Option (List Char × List Char)
  | [] => none
  | c :: rest =>
    if c = '\\' then
      match rest with
      | [] => none
      | c2 :: rest2 => (pString rest2).map (fun p => (c2 :: p.1, p.2))
    else if c = '"' then some ([], rest)
    else (pString rest).map (fun p => (c :: p.1, p.2))

/-- Longest digit prefix and the remainder. -/
def takeDigits : List Char → List Char × List Char
  | [] => ([], [])
  | c :: cs =>
    if c.isDigit then
      let p := takeDigits cs
      (c :: p.1, p.2)
    else ([], c :: cs)

/-- Value of a digit string. -/
def digitsVal (ds : List Char) : Nat := ds.foldl (fun a c => 10 * a + (c.toNat - 48)) 0

mutual
/-- Parse one JSON value, returning it and the unconsumed remainder. -/
def pValue : Nat → List Char → Option (Json × List Char)
  | 0, _ => none
  | fuel + 1, cs0 =>
    match skipWs cs0 with
    | [] => none
    | c :: rest =>
      if c = '"' then (pString rest).map (fun p => (Json.str (String.mk p.1), p.2))
      else if c = '[' then
        match skipWs rest with
        | [] => none
        | c2 :: rest2 =>
          if c2 = ']' then some (jarr [], rest2)
          else do
            let p ← pValue fuel (c2 :: rest2)
            pArrRest fuel p.2 [p.1]
      else if c = '\x7b' then
        match skipWs rest with
        | [] => none
        | c2 :: rest2 =>
          if c2 = '\x7d' then some (jobj [], rest2)
          else if c2 = '"' then do
            let q ← pString rest2
            match skipWs q.2 with
            | [] => none
            | c3 :: rest3 =>
              if c3 = ':' then do
                let p ← pValue fuel rest3
                pObjRest fuel p.2 [(String.mk q.1, p.1)]
              else none
          else none
      else if c = 'n' then
        match rest with
        | 'u' :: 'l' :: 'l' :: r => some (Json.null, r)
        | _ => none
      else if c = 't' then
        match rest with
        | 'r' :: 'u' :: 'e' :: r => some (Json.bool true, r)
        | _ => none
      else if c = 'f' then
        match rest with
        | 'a' :: 'l' :: 's' :: 'e' :: r => some (Json.bool false, r)
        | _ => none
      else if c = '-' then
        match takeDigits rest with
        | ([], _) => none
        | (ds, rest2) => some (Json.num (-(digitsVal ds : Int)), rest2)
      else if c.isDigit then
        some (Json.num (digitsVal (takeDigits (c :: rest)).1), (takeDigits (c :: rest)).2)
      else none

/-- Parse `, value`* `]` after the first array element. -/
def pArrRest : Nat → List Char → List Json → Option (Json × List Char)
  | 0, _, _ => none
  | fuel + 1, cs, acc =>
    match skipWs cs with
    | [] => none
    | c :: rest =>
      if c = ',' then do
        let p ← pValue fuel rest
        pArrRest fuel p.2 (acc ++ [p.1])
      else if c = ']' then some (jarr acc, rest)
      else none

/-- Parse `, "key": value`* and the closing brace after the first object
entry. -/
def pObjRest : Nat → List Char → List (String × Json) → Option (Json × List Char)
  | 0, _, _ => none
  | fuel + 1, cs, acc =>
    match skipWs cs with
    | [] => none
    | c :: rest =>
      if c = ',' then
        match skipWs rest with
        | [] => none
        | c2 :: rest2 =>
          if c2 = '"' then do
            let q ← pString rest2
            match skipWs q.2 with
            | [] => none
            | c3 :: rest3 =>
              if c3 = ':' then do
                let p ← pValue fuel rest3
                pObjRest fuel p.2 (acc ++ [(String.mk q.1, p.1)])
              else none
          else none
      else if c = '\x7d' then some (jobj acc, rest)
      else none
end

mutual
/-- Parser fuel bound for one dumped value (counts nesting and spine). -/
def jsize : Json → Nat
  | .null => 1
  | .bool _ => 1
  | .num _ => 1
  | .str _ => 1
  | .arr xs => 1 + jsizeL xs
  | .obj kvs => 1 + jsizeO kvs

def jsizeL : JsonList → Nat
  | .nil => 1
  | .cons x xs => 1 + jsize x + jsizeL xs

def jsizeO : JsonObj → Nat
  | .nil => 1
  | .cons _ v kvs => 1 + jsize v + jsizeO kvs
end

/-- The character after a dumped number may not extend it: the remainder
must not start with a digit. -/
def restSafe (rest : List Char) : Prop :=
  ∀ c, rest.head? = some c → c.isDigit = false

/-- `json.loads`: parse one value, then require only whitespace to remain. -/
def loads (cs : List Char) : Option Json :=
  match pValue (2 * cs.length + 2) cs with
  | some (j, rest) => if skipWs rest = [] then some j else none
  | none => none

/-- The per-cell decoding `get_table_data` applies when reading rows back:
a string value that looks braced/bracketed is `json.loads`-decoded, with
`JSONDecodeError` ignored (`pass`); anything else is returned as stored. -/
def consumerDecode (c : Cell) : Cell :=
  match c with
  | .val (Json.str s) =>
    if (s.data.head? = some '\x7b' ∧ s.data.getLast? = some '\x7d') ∨
       (s.data.head? = some '[' ∧ s.data.getLast? = some ']') then
      match loads s.data with
      | some j => .val j
      | none => .val (Json.str s)
    else .val (Json.str s)
  | c2 => c2

/-! ## The three-source scenario of the failure-isolation property

Source `s1`: transport always raises (fetch fails); source `s2`: HTTP 200
with a payload of unrecognized shape (a bare string); source `s3`: HTTP 200
with a well-formed one-record list.  All three configurations pass
`ApiConfig` validation. -/

def cfgS1 : ApiConfig := ⟨"http://a", "REST", none, [], [], "s1", "t1", 3, 30⟩
def cfgS2 : ApiConfig := ⟨"http://b", "REST", none, [], [], "s2", "t2", 3, 30⟩
def cfgS3 : ApiConfig := ⟨"http://c", "REST", none, [], [], "s3", "t3", 3, 30⟩

def c1Sources : List (ApiConfig × (Nat → TransportResult)) :=
  [(cfgS1, fun _ => .raise .clientError),
   (cfgS2, fun _ => .resp 200 (Json.str "weird")),
   (cfgS3, fun _ => .resp 200 (jarr [jobj [("name", Json.str "X")]]))]

def c1NoFail : String → Nat → Bool := fun _ _ => false

/-- The report of the three-source run (`process_apis` cannot raise here,
the `[]` arm is unreachable). -/
def c1Report : List (String × Nat) :=
  match process_apis c1Sources emptyDB c1NoFail with
  | .ok p => p.1
  | .error _ => []

/-- The transport of the C4 counterexample: attempt 0 gets an HTTP 404,
every later attempt would get a 200 with a well-formed payload. -/
def c4Transport : Nat → TransportResult :=
  fun k =>
    if k = 0 then .resp 404 (Json.str "err")
    else .resp 200 (jarr [jobj [("ok", Json.bool true)]])

/-! # Theorems -/

/-- Helper: the body of `fetch_data` never raises — its catch-all `except`
converts every exception into a normal `(api, None)` return. -/
theorem fetch_body_isOk (api : ApiConfig) (t : TransportResult) :
    ∃ r, fetch_body api t = .ok r := by
  unfold fetch_body
  cases do_fetch api t with
  | error e => exact ⟨some (api, none), rfl⟩
  | ok r => exact ⟨r, rfl⟩

/-- Helper: a config accepted by `ApiConfig.__init__` has type `REST` or
`GraphQL`. -/
theorem mkApiConfig_type (url api_type : String) (query : Option String)
    (label : Option String) (params headers : List (String × String))
    (table_name : Option String) (retry_attempts timeout : Nat) (cfg : ApiConfig)
    (h : mkApiConfig url api_type query label params headers table_name
      retry_attempts timeout = .ok cfg) :
    cfg.type = "REST" ∨ cfg.type = "GraphQL" := by
  unfold mkApiConfig at h
  split_ifs at h with h1 h2 h3
  rw [not_and_or, not_ne_iff, not_ne_iff] at h2
  have h4 := Except.ok.inj h
  subst h4
  exact h2

/-- C5: constructing an `ApiConfig` fails (raises `ValueError` instead of
producing a value) when the url is empty, when the type is any string other
than `REST` and `GraphQL`, or when the type is `GraphQL` and the query is
absent or empty. -/
theorem apiConfig_validation_rejects (url api_type : String) (query : Option String)
    (label : Option String) (params headers : List (String × String))
    (table_name : Option String) (retry_attempts timeout : Nat)
    (h : url = "" ∨ (api_type ≠ "REST" ∧ api_type ≠ "GraphQL") ∨
         (api_type = "GraphQL" ∧ query.getD "" = "")) :
    (mkApiConfig url api_type query label params headers table_name
      retry_attempts timeout).isOk = false := by
  unfold mkApiConfig
  split_ifs with h1 h2 h3
  · rfl
  · rfl
  · rfl
  · tauto

/-- Witness for C5: all three rejection cases at concrete inputs. -/
theorem apiConfig_validation_rejects_witness :
    (mkApiConfig "" "REST" none none [] [] none 3 30).isOk = false ∧
    (mkApiConfig "http://x" "SOAP" none none [] [] none 3 30).isOk = false ∧
    (mkApiConfig "http://x" "GraphQL" none none [] [] none 3 30).isOk = false ∧
    (mkApiConfig "http://x" "GraphQL" (some "") none [] [] none 3 30).isOk = false :=
  ⟨apiConfig_validation_rejects _ _ _ _ _ _ _ _ _ (Or.inl rfl),
   apiConfig_validation_rejects _ _ _ _ _ _ _ _ _ (Or.inr (Or.inl (by decide))),
   apiConfig_validation_rejects _ _ _ _ _ _ _ _ _ (Or.inr (Or.inr (by decide))),
   apiConfig_validation_rejects _ _ _ _ _ _ _ _ _ (Or.inr (Or.inr (by decide)))⟩

/-- C10: on a config that passed construction validation (so its type is
exactly `REST` or `GraphQL`), the dispatch of `_do_fetch` always takes one
of its two branches; the implicit fall-through that returns Python `None`
instead of a `(config, payload)` pair is unreachable, whatever the
transport does. -/
theorem do_fetch_total_on_validated (url api_type : String) (query : Option String)
    (label : Option String) (params headers : List (String × String))
    (table_name : Option String) (retry_attempts timeout : Nat) (cfg : ApiConfig)
    (h : mkApiConfig url api_type query label params headers table_name
      retry_attempts timeout = .ok cfg) :
    ∀ t : TransportResult, do_fetch cfg t ≠ .ok none := by
  intro t
  rcases mkApiConfig_type url api_type query label params headers table_name
    retry_attempts timeout cfg h with ht | ht <;>
    · unfold do_fetch
      rw [ht]
      cases t <;> simp

/-- Witness for C10 at a validated concrete config, both transport shapes. -/
theorem do_fetch_total_on_validated_witness :
    do_fetch cfgS1 (.raise .clientError) ≠ .ok none ∧
    do_fetch cfgS1 (.resp 200 Json.null) ≠ .ok none :=
  ⟨do_fetch_total_on_validated "http://a" "REST" none (some "s1") [] [] (some "t1")
     3 30 cfgS1 rfl _,
   do_fetch_total_on_validated "http://a" "REST" none (some "s1") [] [] (some "t1")
     3 30 cfgS1 rfl _⟩

/-- C3 (code bug): the claim expects `source.retryAttempts` attempts with
backoff before an absence outcome.  In the code, `fetch_data` makes exactly
one attempt for every source and every transport behaviour: the catch-all
`except` inside `fetch_data` swallows the transport exception before the
`backoff` decorator can observe it, so no retry ever happens (and the
decorator's budget is the constant `max_tries=3`, not
`source.retryAttempts`).  At the failing input — a validated source with
`retry_attempts = 3` whose transport raises on every attempt — the fetch
performs 1 attempt, not 3, and returns the absence outcome `(api, None)`. -/
theorem fetch_single_attempt_on_transport_failure :
    (∀ (api : ApiConfig) (transport : Nat → TransportResult),
        (fetch_data api transport).1 = 1) ∧
    fetch_data cfgS1 (fun _ => .raise .clientError) = (1, .ok (some (cfgS1, none))) ∧
    cfgS1.retry_attempts = 3 ∧ (1 : Nat) ≠ 3 := by
  refine ⟨?_, rfl, rfl, by decide⟩
  intro api transport
  obtain ⟨r, hr⟩ := fetch_body_isOk api (transport 0)
  unfold fetch_data backoffLoop
  simp [hr]

/-- C4 counterexample: a non-2xx response does not consume one attempt of a
retry budget and trigger another attempt — it ends the fetch immediately.
With a budget of 3 attempts and a transport whose attempt 0 returns HTTP
404 while every later attempt would return HTTP 200 with a good payload,
the fetch performs exactly 1 attempt and returns the absence outcome,
never reaching the good response. -/
theorem non2xx_no_retry_counterexample :
    fetch_data cfgS2 c4Transport = (1, .ok (some (cfgS2, none))) ∧
    cfgS2.retry_attempts = 3 ∧ (1 : Nat) < 3 :=
  ⟨rfl, rfl, by decide⟩

/-- C4 amended: a non-2xx HTTP response ends the fetch immediately with an
absence outcome after a single attempt; it is not retried, because
`_do_fetch` returns `(api, None)` rather than raising, and only the raised
transport exceptions `(aiohttp.ClientError, asyncio.TimeoutError)` are
retry-eligible for the `backoff` decorator (which the catch-all `except`
prevents from ever firing in any case). -/
theorem non2xx_ends_fetch_immediately (api : ApiConfig)
    (transport : Nat → TransportResult) (status : Nat) (body : Json)
    (htype : api.type = "REST" ∨ api.type = "GraphQL")
    (h0 : transport 0 = .resp status body) (hs : status ≠ 200) :
    fetch_data api transport = (1, .ok (some (api, none))) := by
  have hbody : fetch_body api (transport 0) = .ok (some (api, none)) := by
    rw [h0]
    unfold fetch_body do_fetch
    rcases htype with ht | ht <;> rw [ht] <;> simp [hs]
  unfold fetch_data backoffLoop
  simp [hbody]

/-- Witness for C4 amended: the 404-then-200 transport against a validated
REST source. -/
theorem non2xx_ends_fetch_immediately_witness :
    fetch_data cfgS2 c4Transport = (1, .ok (some (cfgS2, none))) :=
  non2xx_ends_fetch_immediately cfgS2 c4Transport 404 (Json.str "err")
    (Or.inl rfl) rfl (by decide)

/-- Helper: flattening is the identity on a record whose values are all
scalars. -/
theorem flattenJObj_scalar : ∀ r : Rec, (∀ kv ∈ r, (kv.2).isScalar = true) →
    flattenJObj (JsonObj.ofList r) = r
  | [], _ => rfl
  | (k, v) :: r, h => by
    have hv : v.isScalar = true := h (k, v) (by simp)
    have hr := flattenJObj_scalar r (fun kv hkv => h kv (by simp [hkv]))
    cases v <;>
      simp_all [JsonObj.ofList, flattenJObj, flattenEntry, Json.isScalar, Json.isComposite]

/-- Helper: `pd.json_normalize` accepts a list of dicts and flattens each. -/
theorem toRecords_map_jobj : ∀ objs : List Rec,
    toRecords (objs.map jobj) = .ok (objs.map (fun r => flattenJObj (JsonObj.ofList r)))
  | [] => rfl
  | r :: objs => by
    simp [toRecords, jobj, toRecords_map_jobj objs, Except.map]

/-- Helper: adding already-present columns changes nothing. -/
theorem addCols_absorb : ∀ (ks2 a : List String), (∀ k ∈ ks2, k ∈ a) →
    addCols a ks2 = a
  | [], _, _ => rfl
  | k :: ks2, a, h => by
    have hk : a.contains k = true := by
      simpa using h k (by simp)
    show addCols (if a.contains k then a else a ++ [k]) ks2 = a
    rw [hk]
    exact addCols_absorb ks2 a (fun k2 hk2 => h k2 (by simp [hk2]))

/-- Helper: adding entirely fresh, duplicate-free columns appends them. -/
theorem addCols_fresh : ∀ (ks a : List String), ks.Nodup → (∀ k ∈ ks, k ∉ a) →
    addCols a ks = a ++ ks
  | [], a, _, _ => by simp [addCols]
  | k :: ks, a, hnd, h => by
    have hk : a.contains k = false := by
      simpa using h k (by simp)
    show addCols (if a.contains k then a else a ++ [k]) ks = a ++ (k :: ks)
    rw [hk]
    simp only [Bool.false_eq_true, if_false]
    rw [addCols_fresh ks (a ++ [k]) hnd.of_cons]
    · simp
    · intro k2 hk2
      simp only [List.mem_append, List.mem_singleton]
      rintro (h2 | rfl)
      · exact h k2 (by simp [hk2]) h2
      · exact (List.nodup_cons.mp hnd).1 hk2

/-- Helper: folding the column union over records that all share the key
list already accumulated changes nothing. -/
theorem foldl_addCols_const : ∀ (objs : List Rec) (ks : List String),
    (∀ r ∈ objs, r.map Prod.fst = ks) →
    objs.foldl (fun a r => addCols a (r.map Prod.fst)) ks = ks
  | [], _, _ => rfl
  | r :: objs, ks, h => by
    rw [List.foldl_cons, h r (by simp), addCols_absorb ks ks (fun k hk => hk)]
    exact foldl_addCols_const objs ks (fun r2 hr2 => h r2 (by simp [hr2]))

/-- Helper: the DataFrame column set of records sharing one duplicate-free
key list is that key list. -/
theorem dfColumns_uniform (objs : List Rec) (ks : List String) (hne : objs ≠ [])
    (hkeys : ∀ r ∈ objs, r.map Prod.fst = ks) (hnodup : ks.Nodup) :
    dfColumns objs = ks := by
  cases objs with
  | nil => exact absurd rfl hne
  | cons r objs =>
    unfold dfColumns
    rw [List.foldl_cons, hkeys r (by simp),
      addCols_fresh ks [] hnodup (by intro k hk; simp), List.nil_append]
    exact foldl_addCols_const objs ks (fun r2 hr2 => hkeys r2 (by simp [hr2]))

/-- Helper: re-reading a duplicate-free record along its own key list
reproduces the record. -/
theorem align_self : ∀ r : Rec, (r.map Prod.fst).Nodup →
    (r.map Prod.fst).map (fun c =>
      ((c, match alistLookup c r with
           | some v => v
           | none => Json.null) : String × Json)) = r
  | [], _ => rfl
  | (k, v) :: r, hnd => by
    have hnd2 : (∀ x, (k, x) ∉ r) ∧ (r.map Prod.fst).Nodup := by simpa using hnd
    simp only [List.map_cons]
    have hk : alistLookup k ((k, v) :: r) = some v := by simp [alistLookup]
    rw [hk]
    have hcongr : (r.map Prod.fst).map (fun c =>
        ((c, match alistLookup c ((k, v) :: r) with
             | some v => v
             | none => Json.null) : String × Json)) =
        (r.map Prod.fst).map (fun c =>
        ((c, match alistLookup c r with
             | some v => v
             | none => Json.null) : String × Json)) := by
      apply List.map_congr_left
      intro c hc
      have hck : ¬ (k = c) := by
        rintro rfl
        obtain ⟨a, hmem, hfst⟩ := List.mem_map.mp hc
        obtain ⟨k2, x⟩ := a
        cases hfst
        exact hnd2.1 x hmem
      simp [alistLookup, hck]
    rw [hcongr, align_self r hnd2.2]

/-- C9 corrected (counterexample): on a flat scalar-valued payload whose
records have different key sets, the REST normalizer is not the identity —
pandas unions the columns and fills the gaps with `None`. -/
theorem normalize_not_identity_counterexample :
    transform_data (jarr [jobj [("a", Json.num 1)], jobj [("b", Json.num 2)]]) cfgRestScratch =
      [[("a", Json.num 1), ("b", Json.null)], [("a", Json.null), ("b", Json.num 2)]] ∧
    ([[("a", Json.num 1), ("b", Json.null)], [("a", Json.null), ("b", Json.num 2)]] : List Rec) ≠
      [[("a", Json.num 1)], [("b", Json.num 2)]] :=
  ⟨by decide, by decide⟩

/-- Helper: `do`-bind on a known-`ok` `Except` steps to the continuation. -/
theorem exceptBindOk {ε α β : Type} (x : α) (f : α → Except ε β) :
    ((Except.ok x : Except ε α) >>= f) = f x := rfl

/-- Helper: for a REST source the GraphQL unwrapping is skipped, and a list
payload goes straight to `pd.json_normalize`. -/
theorem transformBody_rest_arr (cfg : ApiConfig) (hREST : cfg.type = "REST")
    (xs : JsonList) :
    transformBody (Json.arr xs) cfg = jsonNormalize xs.toList := by
  unfold transformBody
  rw [hREST]
  rfl

/-- Helper: on a truthy payload `transform_data` is the caught body. -/
theorem transform_data_truthy (raw : Json) (cfg : ApiConfig)
    (h : raw.truthy = true) :
    transform_data raw cfg = (match transformBody raw cfg with
      | .ok recs => recs
      | .error _ => []) := by
  unfold transform_data
  rw [h]
  rfl

/-- C9 amended: on a non-empty payload that is already a flat list of
scalar-valued objects *sharing one common (duplicate-free) key list*, the
REST normalizer is the identity on the records, field for field, in
order. -/
theorem normalize_identity_on_uniform_flat (cfg : ApiConfig) (objs : List Rec)
    (ks : List String) (hREST : cfg.type = "REST") (hne : objs ≠ [])
    (hkeys : ∀ r ∈ objs, r.map Prod.fst = ks) (hnodup : ks.Nodup)
    (hscalar : ∀ r ∈ objs, ∀ kv ∈ r, (kv.2).isScalar = true) :
    transform_data (jarr (objs.map jobj)) cfg = objs := by
  obtain ⟨r0, objs0, rfl⟩ : ∃ r0 objs0, objs = r0 :: objs0 := by
    cases objs with
    | nil => exact absurd rfl hne
    | cons a b => exact ⟨a, b, rfl⟩
  rw [transform_data_truthy _ cfg (by simp [jarr, JsonList.ofList, Json.truthy]),
    show jarr ((r0 :: objs0).map jobj) = Json.arr (JsonList.ofList ((r0 :: objs0).map jobj)) from rfl,
    transformBody_rest_arr cfg hREST, jlistToListOfList]
  unfold jsonNormalize
  rw [toRecords_map_jobj, exceptBindOk]
  have hflat : (r0 :: objs0).map (fun r => flattenJObj (JsonObj.ofList r)) = r0 :: objs0 := by
    refine (List.map_congr_left ?_).trans (List.map_id _)
    intro r hr
    exact flattenJObj_scalar r (hscalar r hr)
  rw [hflat, dfColumns_uniform (r0 :: objs0) ks hne hkeys hnodup]
  have halign : ∀ r ∈ r0 :: objs0, ks.map (fun c =>
      ((c, match alistLookup c r with
           | some v => v
           | none => Json.null) : String × Json)) = r := by
    intro r hr
    rw [← hkeys r hr]
    exact align_self r (by rw [hkeys r hr]; exact hnodup)
  show (r0 :: objs0).map (fun r => ks.map (fun c =>
      ((c, match alistLookup c r with
           | some v => v
           | none => Json.null) : String × Json))) = r0 :: objs0
  exact (List.map_congr_left halign).trans (List.map_id _)

/-- Witness for C9 amended: two uniform single-column records. -/
theorem normalize_identity_on_uniform_flat_witness :
    transform_data (jarr [jobj [("a", Json.num 1)], jobj [("a", Json.num 2)]]) cfgRestScratch =
      [[("a", Json.num 1)], [("a", Json.num 2)]] :=
  normalize_identity_on_uniform_flat cfgRestScratch
    [[("a", Json.num 1)], [("a", Json.num 2)]] ["a"] rfl (by decide)
    (by simp) (by decide) (by simp [Json.isScalar, Json.isComposite])

/-- Helper: setting a table reads back as set. -/
theorem DB.set_get_self (db : DB) (t : String) (rows : List Row) :
    DB.set db t rows t = some rows := by
  simp [DB.set]

/-- Helper: a second set of the same table overwrites the first. -/
theorem DB.set_set (db : DB) (t : String) (r1 r2 : List Row) :
    DB.set (DB.set db t r1) t r2 = DB.set db t r2 := by
  funext t2
  by_cases h : t2 = t <;> simp [DB.set, h]

/-- Helper: setting a table to its current rows changes nothing. -/
theorem DB.set_self (db : DB) (t : String) (cur : List Row) (h : db t = some cur) :
    DB.set db t cur = db := by
  funext t2
  by_cases h2 : t2 = t
  · subst h2
    simp [DB.set, h]
  · simp [DB.set, h2]

/-- Helper: the serialized DataFrame has one row per record. -/
theorem serializeDF_length (data : List Rec) :
    (serializeDF data).length = data.length := by
  simp [serializeDF]

/-- Helper: from chunk number 1 on, every chunk is written in append mode;
if no chunk fails, the loop reports success and the table ends with the
current rows followed by all remaining rows, chunk by chunk. -/
theorem storeLoopF_append_all_ok (t : String) (mode0 : WriteMode) (fail : Nat → Bool) :
    ∀ (fuel : Nat) (rows : List Row) (idx : Nat) (db : DB) (cur : List Row),
    rows.length ≤ fuel → 1 ≤ idx → db t = some cur →
    (∀ i, idx ≤ i → fail i = false) →
    storeLoopF t mode0 fail fuel rows idx db = (true, DB.set db t (cur ++ rows)) := by
  intro fuel
  induction fuel with
  | zero =>
    intro rows idx db cur hlen _ hcur _
    cases rows with
    | nil => simp [storeLoopF, DB.set_self db t cur hcur]
    | cons r rows => simp at hlen
  | succ fuel ih =>
    intro rows idx db cur hlen hidx hcur hfail
    cases rows with
    | nil => simp [storeLoopF, DB.set_self db t cur hcur]
    | cons r rows =>
      have hf : fail idx = false := hfail idx le_rfl
      have hidx0 : ¬ (idx = 0) := by omega
      rw [storeLoopF, hf]
      simp only [Bool.false_eq_true, if_false, hidx0]
      have hcommit : commitChunk db t WriteMode.append ((r :: rows).take 1000) =
          DB.set db t (cur ++ (r :: rows).take 1000) := by
        simp [commitChunk, hcur]
      rw [hcommit,
        ih ((r :: rows).drop 1000) (idx + 1) _ (cur ++ (r :: rows).take 1000)
          (by simp at hlen ⊢; omega) (by omega) (DB.set_get_self db t _)
          (fun i hi => hfail i (by omega)),
        DB.set_set, List.append_assoc, List.take_append_drop]

/-- Helper: from chunk number 1 on, a first failure at chunk `idx + k`
aborts the loop, reports failure, and leaves exactly the chunks before it
appended. -/
theorem storeLoopF_fail_at (t : String) (mode0 : WriteMode) (fail : Nat → Bool) :
    ∀ (k fuel : Nat) (rows : List Row) (idx : Nat) (db : DB) (cur : List Row),
    rows.length ≤ fuel → 1 ≤ idx → db t = some cur →
    (∀ i, idx ≤ i → i < idx + k → fail i = false) → fail (idx + k) = true →
    1000 * k < rows.length →
    storeLoopF t mode0 fail fuel rows idx db =
      (false, DB.set db t (cur ++ rows.take (1000 * k))) := by
  intro k
  induction k with
  | zero =>
    intro fuel rows idx db cur hlen hidx hcur _ hk hrows
    cases rows with
    | nil => simp at hrows
    | cons r rows =>
      cases fuel with
      | zero => simp at hlen
      | succ fuel =>
        rw [storeLoopF, show fail idx = true from hk]
        simp [DB.set_self db t cur hcur]
  | succ k ih =>
    intro fuel rows idx db cur hlen hidx hcur hbefore hk hrows
    cases rows with
    | nil => simp at hrows
    | cons r rows =>
      cases fuel with
      | zero => simp at hlen
      | succ fuel =>
        have hf : fail idx = false := hbefore idx le_rfl (by omega)
        have hidx0 : ¬ (idx = 0) := by omega
        rw [storeLoopF, hf]
        simp only [Bool.false_eq_true, if_false, hidx0]
        have hcommit : commitChunk db t WriteMode.append ((r :: rows).take 1000) =
            DB.set db t (cur ++ (r :: rows).take 1000) := by
          simp [commitChunk, hcur]
        have hshift : idx + 1 + k = idx + (k + 1) := by omega
        rw [hcommit,
          ih fuel ((r :: rows).drop 1000) (idx + 1) _ (cur ++ (r :: rows).take 1000)
            (by simp at hlen ⊢; omega) (by omega) (DB.set_get_self db t _)
            (fun i hi hik => hbefore i (by omega) (by omega))
            (by rw [hshift]; exact hk)
            (by simp at hrows ⊢; omega),
          DB.set_set, List.append_assoc]
        have htake : (r :: rows).take 1000 ++ ((r :: rows).drop 1000).take (1000 * k) =
            (r :: rows).take (1000 * (k + 1)) := by
          rw [show 1000 * (k + 1) = 1000 + 1000 * k by ring, List.take_add]
        rw [htake]

/-- Helper: the full loop from chunk 0, no failures.  Chunk 0 is written in
`mode0` (which `store_data` picks as replace exactly when the table already
exists) and every later chunk in append mode; the table ends holding
exactly this run's rows. -/
theorem storeLoopF_from_start_ok (t : String) (fail : Nat → Bool) (db : DB)
    (mode0 : WriteMode)
    (hmode : mode0 = .replace ∨ (mode0 = .append ∧ db t = none))
    (rows : List Row) (hne : rows ≠ []) (hfail : ∀ i, fail i = false) :
    storeLoopF t mode0 fail rows.length rows 0 db = (true, DB.set db t rows) := by
  cases rows with
  | nil => exact absurd rfl hne
  | cons r rows =>
    simp only [List.length_cons]
    rw [storeLoopF, hfail 0]
    simp only [Bool.false_eq_true, if_false, reduceIte]
    have hcommit : commitChunk db t mode0 ((r :: rows).take 1000) =
        DB.set db t ((r :: rows).take 1000) := by
      rcases hmode with rfl | ⟨rfl, hnone⟩
      · rfl
      · simp [commitChunk, hnone]
    rw [hcommit,
      storeLoopF_append_all_ok t mode0 fail rows.length ((r :: rows).drop 1000) 1
        (DB.set db t ((r :: rows).take 1000)) ((r :: rows).take 1000)
        (by simp only [List.length_drop, List.length_cons]; omega) le_rfl
        (DB.set_get_self db t _) (fun i _ => hfail i),
      DB.set_set, List.take_append_drop]

/-- Helper: the full loop from chunk 0, first failure at chunk `k`:
failure is reported, chunks after `k` are never written, chunks before `k`
stay committed. -/
theorem storeLoopF_from_start_fail (t : String) (fail : Nat → Bool) (db : DB)
    (mode0 : WriteMode)
    (hmode : mode0 = .replace ∨ (mode0 = .append ∧ db t = none))
    (rows : List Row) (k : Nat) (hbefore : ∀ i, i < k → fail i = false)
    (hk : fail k = true) (hrows : 1000 * k < rows.length) :
    storeLoopF t mode0 fail rows.length rows 0 db =
      (false, if k = 0 then db else DB.set db t (rows.take (1000 * k))) := by
  cases rows with
  | nil => simp at hrows
  | cons r rows =>
    cases k with
    | zero =>
      simp only [List.length_cons, if_pos rfl]
      rw [storeLoopF, hk]
      simp
    | succ k =>
      have hne : ¬ (k + 1 = 0) := by omega
      simp only [List.length_cons, if_neg hne]
      rw [storeLoopF, hbefore 0 (by omega)]
      simp only [Bool.false_eq_true, if_false, reduceIte]
      have hcommit : commitChunk db t mode0 ((r :: rows).take 1000) =
          DB.set db t ((r :: rows).take 1000) := by
        rcases hmode with rfl | ⟨rfl, hnone⟩
        · rfl
        · simp [commitChunk, hnone]
      rw [hcommit,
        storeLoopF_fail_at t mode0 fail k rows.length ((r :: rows).drop 1000) 1
          (DB.set db t ((r :: rows).take 1000)) ((r :: rows).take 1000)
          (by simp only [List.length_drop, List.length_cons]; omega) le_rfl
          (DB.set_get_self db t _)
          (fun i hi hik => hbefore i (by omega)) (by rw [Nat.add_comm]; exact hk)
          (by simp only [List.length_cons] at hrows
              simp only [List.length_drop, List.length_cons]
              omega),
        DB.set_set]
      have htake : (r :: rows).take 1000 ++ ((r :: rows).drop 1000).take (1000 * k) =
          (r :: rows).take (1000 * (k + 1)) := by
        rw [show 1000 * (k + 1) = 1000 + 1000 * k by ring, List.take_add]
      rw [htake]

/-- Helper: `store_data`'s mode pick satisfies the precondition of the
from-start loop lemmas. -/
theorem store_mode_ok (db : DB) (t : String) :
    (if (db t).isSome then WriteMode.replace else WriteMode.append) = .replace ∨
    ((if (db t).isSome then WriteMode.replace else WriteMode.append) = .append ∧
      db t = none) := by
  cases h : db t with
  | none => exact Or.inr ⟨by simp [h], rfl⟩
  | some rows => exact Or.inl (by simp [h])

/-- Helper: `chunkSizes` is a function of the row count. -/
theorem chunkSizes_eq_N : ∀ (fuel : Nat) (rows : List Row),
    chunkSizes fuel rows = chunkSizesN fuel rows.length
  | fuel, [] => by cases fuel <;> simp [chunkSizes, chunkSizesN]
  | 0, r :: rows => by simp [chunkSizes, chunkSizesN]
  | fuel + 1, r :: rows => by
    show (List.take 1000 (r :: rows)).length :: chunkSizes fuel (List.drop 1000 (r :: rows)) =
      min 1000 ((r :: rows).length) :: chunkSizesN fuel ((r :: rows).length - 1000)
    rw [List.length_take, chunkSizes_eq_N fuel (List.drop 1000 (r :: rows)), List.length_drop]

/-- C2 amended, part of C2/C7 reasoning: on non-empty data with no
persistence failure, `store_data` succeeds and the target table ends
holding exactly this run's serialized rows — when the table did not exist,
every chunk (the first included) is written with `if_exists='append'`,
which creates the table on the first chunk; when the table existed, the
first chunk is written with `if_exists='replace'`, dropping the old rows,
and later chunks append.  Row count is preserved, and 2500 records are
written as 3 chunks of 1000/1000/500. -/
theorem store_chunks_modes_and_rows (data : List Rec) (cfg : ApiConfig) (db : DB)
    (hne : data ≠ []) :
    store_data data cfg db (fun _ => false) =
      (true, DB.set db cfg.table_name (serializeDF data)) ∧
    (serializeDF data).length = data.length ∧
    (data.length = 2500 →
      chunkSizes (serializeDF data).length (serializeDF data) = [1000, 1000, 500]) := by
  have hlen := serializeDF_length data
  have hdfne : serializeDF data ≠ [] := by
    intro h0
    rw [h0] at hlen
    cases data with
    | nil => exact hne rfl
    | cons a b => simp at hlen
  have hemp : data.isEmpty = false := by
    cases data with
    | nil => exact absurd rfl hne
    | cons a b => rfl
  refine ⟨?_, hlen, ?_⟩
  · unfold store_data
    rw [hemp]
    simp only [Bool.false_eq_true, if_false]
    exact storeLoopF_from_start_ok cfg.table_name (fun _ => false) db _
      (store_mode_ok db cfg.table_name) (serializeDF data) hdfne (fun _ => rfl)
  · intro h2500
    rw [chunkSizes_eq_N, hlen, h2500]
    decide

/-- C2 corrected (counterexample): when the target table already exists,
the chunks are NOT all appends — the first chunk is written with
`if_exists='replace'`, which drops the pre-existing rows.  Storing one
record into a table holding one old row leaves only the new row. -/
theorem store_replace_existing_counterexample :
    ((store_data [[("a", Json.num 1)]] cfgRestScratch
        (DB.set emptyDB "t" [[("a", Cell.val (Json.num 99))]]) (fun _ => false)).2 "t" =
      some [[("a", Cell.val (Json.num 1))]]) ∧
    ((store_data [[("a", Json.num 1)]] cfgRestScratch
        (DB.set emptyDB "t" [[("a", Cell.val (Json.num 99))]]) (fun _ => false)).2 "t" ≠
      some [[("a", Cell.val (Json.num 99))], [("a", Cell.val (Json.num 1))]]) :=
  ⟨by decide, by decide⟩

/-- Witness for C2 amended at a concrete one-record store into a fresh
table. -/
theorem store_chunks_modes_and_rows_witness :
    store_data [[("a", Json.num 1)]] cfgRestScratch emptyDB (fun _ => false) =
      (true, DB.set emptyDB cfgRestScratch.table_name (serializeDF [[("a", Json.num 1)]])) ∧
    (serializeDF [[("a", Json.num 1)]]).length = [[("a", Json.num 1)]].length ∧
    ([[("a", Json.num 1)]].length = 2500 →
      chunkSizes (serializeDF [[("a", Json.num 1)]]).length
        (serializeDF [[("a", Json.num 1)]]) = [1000, 1000, 500]) :=
  store_chunks_modes_and_rows [[("a", Json.num 1)]] cfgRestScratch emptyDB (by decide)

/-- C7: a persistence error while writing chunk `k` (the first failing
chunk) makes `store_data` stop — later chunks are never attempted, no
automatic retry happens, the chunks committed before `k` stay committed
(the table holds exactly the first `1000*k` serialized rows; an error on
the very first chunk leaves the store untouched) — and the per-source
pipeline result, hence the source's report entry, is 0. -/
theorem store_failure_aborts (cfg : ApiConfig) (db : DB) (fail : Nat → Bool)
    (data : List Rec) (k : Nat)
    (hbefore : ∀ i, i < k → fail i = false) (hk : fail k = true)
    (hlen : 1000 * k < data.length) :
    store_data data cfg db fail =
      (false, if k = 0 then db
              else DB.set db cfg.table_name ((serializeDF data).take (1000 * k))) ∧
    (∀ raw, transform_data raw cfg = data →
      process_data_in_thread_pool cfg raw db fail =
        (0, if k = 0 then db
            else DB.set db cfg.table_name ((serializeDF data).take (1000 * k)))) := by
  have hne : data ≠ [] := by
    intro h0
    rw [h0] at hlen
    simp at hlen
  have hemp : data.isEmpty = false := by
    cases data with
    | nil => exact absurd rfl hne
    | cons a b => rfl
  have hstore : store_data data cfg db fail =
      (false, if k = 0 then db
              else DB.set db cfg.table_name ((serializeDF data).take (1000 * k))) := by
    unfold store_data
    rw [hemp]
    simp only [Bool.false_eq_true, if_false]
    exact storeLoopF_from_start_fail cfg.table_name fail db _
      (store_mode_ok db cfg.table_name) (serializeDF data) k hbefore hk
      (by rw [serializeDF_length]; exact hlen)
  refine ⟨hstore, ?_⟩
  intro raw htr
  unfold process_data_in_thread_pool
  rw [htr]
  simp [hemp, hstore]

/-- Witness for C7: a failure on the very first chunk reports `False`/0 and
leaves the store untouched. -/
theorem store_failure_aborts_witness :
    store_data [[("a", Json.num 1)]] cfgRestScratch emptyDB (fun _ => true) =
      (false, if 0 = 0 then emptyDB
              else DB.set emptyDB cfgRestScratch.table_name
                ((serializeDF [[("a", Json.num 1)]]).take (1000 * 0))) ∧
    (∀ raw, transform_data raw cfgRestScratch = [[("a", Json.num 1)]] →
      process_data_in_thread_pool cfgRestScratch raw emptyDB (fun _ => true) =
        (0, if 0 = 0 then emptyDB
            else DB.set emptyDB cfgRestScratch.table_name
              ((serializeDF [[("a", Json.num 1)]]).take (1000 * 0)))) :=
  store_failure_aborts cfgRestScratch emptyDB (fun _ => true) [[("a", Json.num 1)]] 0
    (fun i hi => absurd hi (Nat.not_lt_zero i)) rfl (by decide)

/-- Helper: on a source whose type passed validation, the fetch outcome is
always a pair carrying the same config, with some optional payload. -/
theorem fetch_result_shape (api : ApiConfig) (transport : Nat → TransportResult)
    (h : api.type = "REST" ∨ api.type = "GraphQL") :
    ∃ payload, (fetch_data api transport).2 = .ok (some (api, payload)) := by
  cases h0 : transport 0 with
  | raise e =>
    have hb : fetch_body api (transport 0) = .ok (some (api, none)) := by
      unfold fetch_body do_fetch
      rw [h0]
      rcases h with ht | ht <;> rw [ht] <;> rfl
    exact ⟨none, by unfold fetch_data backoffLoop; rw [hb]⟩
  | resp status body =>
    by_cases hs : status = 200
    · have hb : fetch_body api (transport 0) = .ok (some (api, some body)) := by
        unfold fetch_body do_fetch
        rw [h0]
        rcases h with ht | ht <;> rw [ht] <;> simp [hs]
      exact ⟨some body, by unfold fetch_data backoffLoop; rw [hb]⟩
    · have hb : fetch_body api (transport 0) = .ok (some (api, none)) := by
        unfold fetch_body do_fetch
        rw [h0]
        rcases h with ht | ht <;> rw [ht] <;> simp [hs]
      exact ⟨none, by unfold fetch_data backoffLoop; rw [hb]⟩

/-- Helper: with every source validated, the submission loop never sees the
unpackable `None` result, and it submits exactly the sources whose payload
is truthy, in order. -/
theorem collectFutures_of_valid :
    ∀ sources : List (ApiConfig × (Nat → TransportResult)),
    (∀ s ∈ sources, s.1.type = "REST" ∨ s.1.type = "GraphQL") →
    ∃ futures, collectFutures (sources.map (fun s => (fetch_data s.1 s.2).2)) = .ok futures ∧
      futures.map (fun cf => cf.1.label) =
        (sources.filter truthyPayload).map (fun s => s.1.label)
  | [], _ => ⟨[], rfl, rfl⟩
  | s :: rest, hval => by
    obtain ⟨futures, hcf, hlabels⟩ :=
      collectFutures_of_valid rest (fun s2 hs2 => hval s2 (by simp [hs2]))
    obtain ⟨payload, hshape⟩ := fetch_result_shape s.1 s.2 (hval s (by simp))
    simp only [List.map_cons]
    rw [hshape, collectFutures, hcf, exceptBindOk]
    cases payload with
    | none =>
      have htp : truthyPayload s = false := by
        unfold truthyPayload
        rw [hshape]
      refine ⟨futures, rfl, ?_⟩
      rw [List.filter_cons, htp]
      simp only [Bool.false_eq_true, if_false]
      exact hlabels
    | some j =>
      have htp : truthyPayload s = j.truthy := by
        unfold truthyPayload
        rw [hshape]
      cases hj : j.truthy with
      | false =>
        refine ⟨futures, ?_, ?_⟩
        · show (if j.truthy = true then pure ((s.1, j) :: futures) else pure futures) =
            Except.ok futures
          rw [hj]
          rfl
        rw [List.filter_cons, htp, hj]
        simp only [Bool.false_eq_true, if_false]
        exact hlabels
      | true =>
        refine ⟨(s.1, j) :: futures, ?_, ?_⟩
        · show (if j.truthy = true then pure ((s.1, j) :: futures) else pure futures) =
            Except.ok ((s.1, j) :: futures)
          rw [hj]
          rfl
        rw [List.filter_cons, htp, hj]
        simp only [if_true, List.map_cons]
        rw [hlabels]

/-- Helper: inserting a fresh key appends it. -/
theorem dictInsert_fresh (d : List (String × Nat)) (k : String) (v : Nat)
    (h : ∀ e ∈ d, e.1 ≠ k) : dictInsert d k v = d ++ [(k, v)] := by
  have hany : d.any (fun e => e.1 == k) = false := by
    rw [List.any_eq_false]
    intro e he
    simpa using h e he
  unfold dictInsert
  rw [hany]
  simp

/-- Helper: with pairwise-distinct labels and a report whose keys avoid
them, the collection loop appends one entry per future, in order. -/
theorem processReport_keys (fail : String → Nat → Bool) :
    ∀ (futures : List (ApiConfig × Json)) (acc : List (String × Nat)) (db : DB),
    (futures.map (fun cf => cf.1.label)).Nodup →
    (∀ cf ∈ futures, ∀ e ∈ acc, e.1 ≠ cf.1.label) →
    ((futures.foldl (fun acc2 cf =>
        let r := process_data_in_thread_pool cf.1 cf.2 acc2.2 (fail cf.1.table_name)
        (dictInsert acc2.1 cf.1.label r.1, r.2)) (acc, db)).1).map Prod.fst =
      acc.map Prod.fst ++ futures.map (fun cf => cf.1.label)
  | [], acc, db, _, _ => by simp
  | cf :: rest, acc, db, hnodup, hfresh => by
    rw [List.foldl_cons]
    have hins := dictInsert_fresh acc cf.1.label
      (process_data_in_thread_pool cf.1 cf.2 db (fail cf.1.table_name)).1
      (fun e he => hfresh cf (by simp) e he)
    simp only [hins]
    have hnodup2 : (rest.map (fun cf2 => cf2.1.label)).Nodup := by
      simpa using hnodup.of_cons
    have hfresh2 : ∀ cf2 ∈ rest, ∀ e ∈ acc ++ [(cf.1.label,
        (process_data_in_thread_pool cf.1 cf.2 db (fail cf.1.table_name)).1)],
        e.1 ≠ cf2.1.label := by
      intro cf2 hcf2 e he
      rcases List.mem_append.mp he with he2 | he2
      · exact hfresh cf2 (by simp [hcf2]) e he2
      · simp only [List.mem_singleton] at he2
        subst he2
        show cf.1.label ≠ cf2.1.label
        intro hcontra
        have : cf.1.label ∈ rest.map (fun cf2 => cf2.1.label) := by
          rw [hcontra]
          exact List.mem_map.mpr ⟨cf2, hcf2, rfl⟩
        exact (List.nodup_cons.mp (by simpa using hnodup)).1 this
    rw [processReport_keys fail rest _ _ hnodup2 hfresh2]
    simp

/-- C1 corrected (counterexample): in the three-source scenario — `s1`
always fails transport, `s2` returns HTTP 200 with an unrecognized payload
shape, `s3` succeeds with one record — the final report does NOT contain an
entry for every submitted source: `s1` is absent (its fetch degraded to
payload `None`, so no transform+store unit was ever submitted and no report
entry written), while `s2` maps to 0 and `s3` to its row count 1. -/
theorem fetch_failed_source_missing_from_report :
    alistLookup "s1" c1Report = none ∧
    alistLookup "s2" c1Report = some 0 ∧
    alistLookup "s3" c1Report = some 1 ∧
    cfgS1.label = "s1" :=
  ⟨by decide, by decide, by decide, rfl⟩

/-- C1 amended: for every run over validated sources with pairwise-distinct
labels, `process_apis` returns a report whose keys are exactly the labels
of the sources whose fetch produced a truthy payload, in submission order:
sources that fail at the normalize or store stage still appear (mapped to
0, see the store/transform theorems), but a source whose fetch fails —
payload `None` — is omitted from the report entirely. -/
theorem report_keys_are_truthy_sources
    (sources : List (ApiConfig × (Nat → TransportResult))) (db0 : DB)
    (fail : String → Nat → Bool)
    (hval : ∀ s ∈ sources, s.1.type = "REST" ∨ s.1.type = "GraphQL")
    (hnodup : (sources.map (fun s => s.1.label)).Nodup) :
    ∃ report dbF, process_apis sources db0 fail = .ok (report, dbF) ∧
      report.map Prod.fst = (sources.filter truthyPayload).map (fun s => s.1.label) := by
  obtain ⟨futures, hcf, hlabels⟩ := collectFutures_of_valid sources hval
  have hnodupF : (futures.map (fun cf => cf.1.label)).Nodup := by
    rw [hlabels]
    exact hnodup.sublist (List.Sublist.map _ (List.filter_sublist _))
  have hpa : process_apis sources db0 fail =
      .ok (futures.foldl (fun acc2 cf =>
        let r := process_data_in_thread_pool cf.1 cf.2 acc2.2 (fail cf.1.table_name)
        (dictInsert acc2.1 cf.1.label r.1, r.2)) ([], db0)) := by
    simp only [process_apis, hcf, exceptBindOk]
    rfl
  refine ⟨_, _, hpa, ?_⟩
  rw [processReport_keys fail futures [] db0 hnodupF (by intro cf hcf2 e he; simp at he)]
  simpa using hlabels

/-- Witness for C1 amended: the three-source scenario — the fetch-failed
source is not a key of the report; the other two are, in order. -/
theorem report_keys_are_truthy_sources_witness :
    ∃ report dbF, process_apis c1Sources emptyDB c1NoFail = .ok (report, dbF) ∧
      report.map Prod.fst = (c1Sources.filter truthyPayload).map (fun s => s.1.label) :=
  report_keys_are_truthy_sources c1Sources emptyDB c1NoFail
    (by
      intro s hs
      simp only [c1Sources, List.mem_cons, List.not_mem_nil, or_false] at hs
      rcases hs with rfl | rfl | rfl
      · exact Or.inl rfl
      · exact Or.inl rfl
      · exact Or.inl rfl)
    (by decide)

/-- Helper: digit characters have the expected code points. -/
theorem digitChar_isDigit (d : Nat) (h : d < 10) : (digitChar d).isDigit = true := by
  interval_cases d <;> decide

theorem digitChar_toNat (d : Nat) (h : d < 10) : (digitChar d).toNat = 48 + d := by
  interval_cases d <;> decide

/-- Helper: a digit is not whitespace. -/
theorem digit_not_ws (c : Char) (h : c.isDigit = true) : isWsChar c = false := by
  by_cases h1 : c = ' '
  · subst h1; exact absurd h (by decide)
  by_cases h2 : c = '\t'
  · subst h2; exact absurd h (by decide)
  by_cases h3 : c = '\n'
  · subst h3; exact absurd h (by decide)
  by_cases h4 : c = '\r'
  · subst h4; exact absurd h (by decide)
  simp [isWsChar, h1, h2, h3, h4]

/-- Helper: a digit is none of the JSON delimiter characters. -/
theorem digit_ne_delims (c : Char) (h : c.isDigit = true) :
    c ≠ '"' ∧ c ≠ '[' ∧ c ≠ '\x7b' ∧ c ≠ 'n' ∧ c ≠ 't' ∧ c ≠ 'f' ∧ c ≠ '-' ∧
    c ≠ ']' ∧ c ≠ '\x7d' ∧ c ≠ ',' ∧ c ≠ ':' := by
  refine ⟨?_, ?_, ?_, ?_, ?_, ?_, ?_, ?_, ?_, ?_, ?_⟩ <;>
    (rintro rfl; exact absurd h (by decide))

theorem digitsVal_append_single (ds : List Char) (c : Char) :
    digitsVal (ds ++ [c]) = 10 * digitsVal ds + (c.toNat - 48) := by
  unfold digitsVal
  rw [List.foldl_append]
  rfl

/-- Helper: with enough fuel, `natDigitsF` produces a non-empty digit
string whose value is the number. -/
theorem natDigitsF_spec : ∀ (fuel n : Nat), n < fuel →
    natDigitsF fuel n ≠ [] ∧ (∀ c ∈ natDigitsF fuel n, c.isDigit = true) ∧
    digitsVal (natDigitsF fuel n) = n := by
  intro fuel
  induction fuel with
  | zero => intro n h; exact absurd h (Nat.not_lt_zero n)
  | succ fuel ih =>
    intro n h
    by_cases h10 : n < 10
    · rw [show natDigitsF (fuel + 1) n = [digitChar n] from by
        simp only [natDigitsF]; rw [if_pos h10]]
      refine ⟨by simp, ?_, ?_⟩
      · intro c hc
        simp only [List.mem_singleton] at hc
        subst hc
        exact digitChar_isDigit n h10
      · show digitsVal ([] ++ [digitChar n]) = n
        rw [digitsVal_append_single, digitChar_toNat n h10]
        simp [digitsVal]
    · have hdiv : n / 10 < n := Nat.div_lt_self (by omega) (by omega)
      obtain ⟨hne, hdig, hval⟩ := ih (n / 10) (by omega)
      rw [show natDigitsF (fuel + 1) n = natDigitsF fuel (n / 10) ++ [digitChar (n % 10)] from by
        simp only [natDigitsF]; rw [if_neg h10]]
      refine ⟨by simp, ?_, ?_⟩
      · intro c hc
        rcases List.mem_append.mp hc with hc | hc
        · exact hdig c hc
        · simp only [List.mem_singleton] at hc
          subst hc
          exact digitChar_isDigit _ (Nat.mod_lt n (by omega))
      · rw [digitsVal_append_single, hval, digitChar_toNat _ (Nat.mod_lt n (by omega))]
        omega

theorem natDigits_spec (n : Nat) :
    natDigits n ≠ [] ∧ (∀ c ∈ natDigits n, c.isDigit = true) ∧
    digitsVal (natDigits n) = n :=
  natDigitsF_spec (n + 1) n (by omega)

/-- Helper: `takeDigits` splits a digit prefix from a non-digit-headed
remainder exactly. -/
theorem takeDigits_exact : ∀ (ds rest : List Char), (∀ c ∈ ds, c.isDigit = true) →
    (∀ c, rest.head? = some c → c.isDigit = false) →
    takeDigits (ds ++ rest) = (ds, rest)
  | [], rest, _, hrest => by
    cases rest with
    | nil => rfl
    | cons c rest =>
      have hc := hrest c rfl
      simp [takeDigits, hc]
  | d :: ds, rest, hds, hrest => by
    have hd : d.isDigit = true := hds d (by simp)
    show takeDigits (d :: (ds ++ rest)) = (d :: ds, rest)
    rw [takeDigits, if_pos hd,
      takeDigits_exact ds rest (fun c hc => hds c (by simp [hc])) hrest]

theorem skipWs_not_ws (c : Char) (cs : List Char) (h : isWsChar c = false) :
    skipWs (c :: cs) = c :: cs := by
  simp [skipWs, h]

theorem skipWs_ws (c : Char) (cs : List Char) (h : isWsChar c = true) :
    skipWs (c :: cs) = skipWs cs := by
  simp [skipWs, h]

/-- Helper: the string parser inverts the escaper. -/
theorem pString_escape : ∀ (cs rest : List Char),
    pString (escapeChars cs ++ ('"' :: rest)) = some (cs, rest)
  | [], rest => by
    show pString ('"' :: rest) = some ([], rest)
    unfold pString
    rfl
  | c :: cs, rest => by
    by_cases hq : c = '"'
    · subst hq
      show (pString (escapeChars cs ++ ('"' :: rest))).map
        (fun p => ('"' :: p.1, p.2)) = some ('"' :: cs, rest)
      rw [pString_escape cs rest]
      rfl
    · by_cases hb : c = '\\'
      · subst hb
        show (pString (escapeChars cs ++ ('"' :: rest))).map
          (fun p => ('\\' :: p.1, p.2)) = some ('\\' :: cs, rest)
        rw [pString_escape cs rest]
        rfl
      · rw [show escapeChars (c :: cs) = escapeChar c ++ escapeChars cs from rfl,
          show escapeChar c = [c] from by
            unfold escapeChar; rw [if_neg (not_or.mpr ⟨hq, hb⟩)]]
        show pString (c :: (escapeChars cs ++ ('"' :: rest))) = some (c :: cs, rest)
        unfold pString
        rw [if_neg hb, if_neg hq, pString_escape cs rest]
        rfl

/-- Helper: an integer prints as a minus sign or digit followed by more
characters. -/
theorem intDigits_head (i : Int) :
    ∃ c cs, intDigits i = c :: cs ∧ (c = '-' ∨ c.isDigit = true) := by
  unfold intDigits
  split_ifs with hneg
  · exact ⟨'-', natDigits i.natAbs, rfl, Or.inl rfl⟩
  · obtain ⟨hne, hdig, _⟩ := natDigits_spec i.toNat
    cases hd : natDigits i.toNat with
    | nil => exact absurd hd hne
    | cons c cs =>
      exact ⟨c, cs, rfl, Or.inr (hdig c (by rw [hd]; simp))⟩

/-- Helper: the first character of any dumped value is never whitespace nor
a closing/separator character. -/
theorem dump_head_facts (j : Json) : ∃ c cs, dumpChars j = c :: cs ∧
    isWsChar c = false ∧ c ≠ ']' ∧ c ≠ '\x7d' ∧ c ≠ ',' ∧ c ≠ ':' := by
  cases j with
  | null => exact ⟨'n', _, rfl, by decide, by decide, by decide, by decide, by decide⟩
  | bool b =>
    cases b with
    | true => exact ⟨'t', _, rfl, by decide, by decide, by decide, by decide, by decide⟩
    | false => exact ⟨'f', _, rfl, by decide, by decide, by decide, by decide, by decide⟩
  | num i =>
    obtain ⟨c, cs, hd, hc⟩ := intDigits_head i
    refine ⟨c, cs, hd, ?_, ?_, ?_, ?_, ?_⟩ <;>
      rcases hc with rfl | hdig
    · decide
    · exact digit_not_ws c hdig
    · decide
    · exact (digit_ne_delims c hdig).2.2.2.2.2.2.2.1
    · decide
    · exact (digit_ne_delims c hdig).2.2.2.2.2.2.2.2.1
    · decide
    · exact (digit_ne_delims c hdig).2.2.2.2.2.2.2.2.2.1
    · decide
    · exact (digit_ne_delims c hdig).2.2.2.2.2.2.2.2.2.2
  | str s => exact ⟨'"', _, rfl, by decide, by decide, by decide, by decide, by decide⟩
  | arr xs => exact ⟨'[', _, rfl, by decide, by decide, by decide, by decide, by decide⟩
  | obj kvs => exact ⟨'\x7b', _, rfl, by decide, by decide, by decide, by decide, by decide⟩

/-- Helper: leading whitespace-free dumped output passes `skipWs`
unchanged. -/
theorem skipWs_dump (j : Json) (r : List Char) :
    skipWs (dumpChars j ++ r) = dumpChars j ++ r := by
  obtain ⟨c, cs, hd, hws, _⟩ := dump_head_facts j
  rw [hd, List.cons_append, skipWs_not_ws c _ hws]

/-- Helper: the value parser ignores one leading whitespace character. -/
theorem pValue_skip (fuel : Nat) (c : Char) (cs : List Char) (h : isWsChar c = true) :
    pValue fuel (c :: cs) = pValue fuel cs := by
  cases fuel with
  | zero => rfl
  | succ f =>
    simp only [pValue]
    rw [skipWs_ws c cs h]

theorem stringMk_data (s : String) : String.mk s.data = s := by
  cases s
  rfl

theorem jlistOfListToList : ∀ xs : JsonList, JsonList.ofList xs.toList = xs
  | .nil => rfl
  | .cons x xs => by
    simp [JsonList.toList, JsonList.ofList, jlistOfListToList xs]

theorem jobjOfListToList : ∀ kvs : JsonObj, JsonObj.ofList kvs.toList = kvs
  | .nil => rfl
  | .cons k v kvs => by
    simp [JsonObj.toList, JsonObj.ofList, jobjOfListToList kvs]

theorem jsize_pos (j : Json) : 1 ≤ jsize j := by
  cases j <;> simp [jsize]

theorem jsizeL_pos (xs : JsonList) : 1 ≤ jsizeL xs := by
  cases xs with
  | nil => exact le_refl 1
  | cons x xs =>
    show 1 ≤ 1 + jsize x + jsizeL xs
    omega

theorem jsizeO_pos (kvs : JsonObj) : 1 ≤ jsizeO kvs := by
  cases kvs with
  | nil => exact le_refl 1
  | cons k v kvs =>
    show 1 ≤ 1 + jsize v + jsizeO kvs
    omega

/-- Helper: after the elements of an array tail comes `]` or `,` — never a
digit. -/
theorem restSafe_listTail (xs : JsonList) (rest : List Char) :
    restSafe (dumpListTail xs ++ (']' :: rest)) := by
  cases xs with
  | nil =>
    intro c hc
    simp only [dumpListTail, List.nil_append, List.head?_cons, Option.some.injEq] at hc
    subst hc
    decide
  | cons x xs =>
    intro c hc
    simp only [dumpListTail, List.cons_append, List.head?_cons, Option.some.injEq] at hc
    subst hc
    decide

/-- Helper: after a value inside an object comes the closing brace or a
comma — never a digit. -/
theorem restSafe_objTail (kvs : JsonObj) (rest : List Char) :
    restSafe (dumpObjTail kvs ++ ('\x7d' :: rest)) := by
  cases kvs with
  | nil =>
    intro c hc
    simp only [dumpObjTail, List.nil_append, List.head?_cons, Option.some.injEq] at hc
    subst hc
    decide
  | cons k v kvs =>
    intro c hc
    simp only [dumpObjTail, List.cons_append, List.head?_cons, Option.some.injEq] at hc
    subst hc
    decide

theorem pValue_null (f : Nat) (rest : List Char) :
    pValue (f + 1) ('n' :: 'u' :: 'l' :: 'l' :: rest) = some (Json.null, rest) := by
  unfold pValue
  rfl

theorem pValue_true (f : Nat) (rest : List Char) :
    pValue (f + 1) ('t' :: 'r' :: 'u' :: 'e' :: rest) = some (Json.bool true, rest) := by
  unfold pValue
  rfl

theorem pValue_false (f : Nat) (rest : List Char) :
    pValue (f + 1) ('f' :: 'a' :: 'l' :: 's' :: 'e' :: rest) =
      some (Json.bool false, rest) := by
  unfold pValue
  rfl

theorem pValue_neg_num (f : Nat) (n : Nat) (rest : List Char)
    (hne : natDigits n ≠ []) (hdig : ∀ c ∈ natDigits n, c.isDigit = true)
    (hsafe : restSafe rest) :
    pValue (f + 1) ('-' :: (natDigits n ++ rest)) =
      some (Json.num (-(digitsVal (natDigits n) : Int)), rest) := by
  unfold pValue
  rw [skipWs_not_ws '-' _ (by decide)]
  dsimp only
  rw [if_neg (by decide : ¬('-' = '"')), if_neg (by decide : ¬('-' = '[')),
    if_neg (by decide : ¬('-' = '\x7b')), if_neg (by decide : ¬('-' = 'n')),
    if_neg (by decide : ¬('-' = 't')), if_neg (by decide : ¬('-' = 'f')),
    if_pos rfl, takeDigits_exact (natDigits n) rest hdig hsafe]
  obtain ⟨d, ds, hds⟩ : ∃ d ds, natDigits n = d :: ds := by
    cases h : natDigits n with
    | nil => exact absurd h hne
    | cons d ds => exact ⟨d, ds, rfl⟩
  rw [hds]

theorem pValue_pos_num (f : Nat) (d : Char) (ds rest : List Char)
    (hdig : ∀ c ∈ d :: ds, c.isDigit = true) (hsafe : restSafe rest) :
    pValue (f + 1) ((d :: ds) ++ rest) = some (Json.num (digitsVal (d :: ds)), rest) := by
  have hd : d.isDigit = true := hdig d (by simp)
  obtain ⟨h1, h2, h3, h4, h5, h6, h7, _⟩ := digit_ne_delims d hd
  unfold pValue
  rw [List.cons_append, skipWs_not_ws d _ (digit_not_ws d hd)]
  dsimp only
  rw [if_neg h1, if_neg h2, if_neg h3, if_neg h4, if_neg h5, if_neg h6, if_neg h7,
    if_pos hd, show d :: (ds ++ rest) = (d :: ds) ++ rest from rfl,
    takeDigits_exact (d :: ds) rest hdig hsafe]

theorem pValue_str (f : Nat) (cs rest : List Char) :
    pValue (f + 1) (('"' :: (escapeChars cs ++ ['"'])) ++ rest) =
      some (Json.str (String.mk cs), rest) := by
  unfold pValue
  rw [List.cons_append, skipWs_not_ws '"' _ (by decide)]
  dsimp only
  rw [if_pos rfl, List.append_assoc, List.singleton_append, pString_escape cs rest]
  rfl

theorem pValue_arr_nil (f : Nat) (rest : List Char) :
    pValue (f + 1) ('[' :: ']' :: rest) = some (Json.arr JsonList.nil, rest) := by
  unfold pValue
  rfl

theorem pValue_arr_cons (f : Nat) (x : Json) (xs : JsonList) (rest : List Char) :
    pValue (f + 1) (dumpChars (Json.arr (JsonList.cons x xs)) ++ rest) =
      (pValue f (dumpChars x ++ (dumpListTail xs ++ (']' :: rest)))).bind
        (fun p => pArrRest f p.2 [p.1]) := by
  show pValue (f + 1)
    ('[' :: (((dumpChars x ++ dumpListTail xs) ++ [']']) ++ rest)) = _
  conv_lhs => unfold pValue
  rw [skipWs_not_ws '[' _ (by decide)]
  dsimp only
  rw [if_neg (by decide : ¬('[' = '"')), if_pos rfl]
  have hre : ((dumpChars x ++ dumpListTail xs) ++ [']']) ++ rest =
      dumpChars x ++ (dumpListTail xs ++ (']' :: rest)) := by
    simp
  rw [hre, skipWs_dump x _]
  obtain ⟨c, cs, hd, hws, hne1, _, _, _⟩ := dump_head_facts x
  rw [hd, List.cons_append]
  dsimp only
  rw [if_neg hne1, ← List.cons_append, ← hd]
  rfl

theorem pValue_obj_nil (f : Nat) (rest : List Char) :
    pValue (f + 1) ('\x7b' :: '\x7d' :: rest) = some (Json.obj JsonObj.nil, rest) := by
  unfold pValue
  rfl

theorem pValue_obj_cons (f : Nat) (k : String) (v : Json) (kvs : JsonObj)
    (rest : List Char) :
    pValue (f + 1) (dumpChars (Json.obj (JsonObj.cons k v kvs)) ++ rest) =
      (pValue f (dumpChars v ++ (dumpObjTail kvs ++ ('\x7d' :: rest)))).bind
        (fun p => pObjRest f p.2 [(k, p.1)]) := by
  show pValue (f + 1)
    ('\x7b' :: (((dumpKey k ++ dumpChars v ++ dumpObjTail kvs) ++ ['\x7d']) ++ rest)) = _
  conv_lhs => unfold pValue
  rw [skipWs_not_ws '\x7b' _ (by decide)]
  dsimp only
  rw [if_neg (by decide : ¬('\x7b' = '"')), if_neg (by decide : ¬('\x7b' = '[')),
    if_pos rfl]
  have hre : ((dumpKey k ++ dumpChars v ++ dumpObjTail kvs) ++ ['\x7d']) ++ rest =
      '"' :: (escapeChars k.data ++
        ('"' :: (':' :: (' ' :: (dumpChars v ++ (dumpObjTail kvs ++ ('\x7d' :: rest))))))) := by
    simp [dumpKey]
  rw [hre, skipWs_not_ws '"' _ (by decide)]
  dsimp only
  rw [if_neg (by decide : ¬('"' = '\x7d')), if_pos rfl, pString_escape k.data _]
  simp only [bind, Option.bind]
  rw [skipWs_not_ws ':' _ (by decide)]
  dsimp only
  rw [if_pos rfl, pValue_skip f ' ' _ (by decide)]

theorem pArrRest_nil (f : Nat) (acc : List Json) (rest : List Char) :
    pArrRest (f + 1) (']' :: rest) acc = some (jarr acc, rest) := by
  unfold pArrRest
  rfl

theorem pArrRest_cons (f : Nat) (x : Json) (xs : JsonList) (acc : List Json)
    (rest : List Char) :
    pArrRest (f + 1) (dumpListTail (JsonList.cons x xs) ++ (']' :: rest)) acc =
      (pValue f (dumpChars x ++ (dumpListTail xs ++ (']' :: rest)))).bind
        (fun p => pArrRest f p.2 (acc ++ [p.1])) := by
  show pArrRest (f + 1)
    (',' :: ' ' :: ((dumpChars x ++ dumpListTail xs) ++ (']' :: rest))) acc = _
  conv_lhs => unfold pArrRest
  rw [skipWs_not_ws ',' _ (by decide)]
  dsimp only
  rw [if_pos rfl, pValue_skip f ' ' _ (by decide), List.append_assoc]
  rfl

theorem pObjRest_nil (f : Nat) (acc : List (String × Json)) (rest : List Char) :
    pObjRest (f + 1) ('\x7d' :: rest) acc = some (jobj acc, rest) := by
  unfold pObjRest
  rfl

theorem pObjRest_cons (f : Nat) (k : String) (v : Json) (kvs : JsonObj)
    (acc : List (String × Json)) (rest : List Char) :
    pObjRest (f + 1) (dumpObjTail (JsonObj.cons k v kvs) ++ ('\x7d' :: rest)) acc =
      (pValue f (dumpChars v ++ (dumpObjTail kvs ++ ('\x7d' :: rest)))).bind
        (fun p => pObjRest f p.2 (acc ++ [(k, p.1)])) := by
  show pObjRest (f + 1)
    (',' :: ' ' :: ((dumpKey k ++ dumpChars v ++ dumpObjTail kvs) ++ ('\x7d' :: rest))) acc = _
  conv_lhs => unfold pObjRest
  rw [skipWs_not_ws ',' _ (by decide)]
  dsimp only
  rw [if_pos rfl, skipWs_ws ' ' _ (by decide)]
  have hre : (dumpKey k ++ dumpChars v ++ dumpObjTail kvs) ++ ('\x7d' :: rest) =
      '"' :: (escapeChars k.data ++
        ('"' :: (':' :: (' ' :: (dumpChars v ++ (dumpObjTail kvs ++ ('\x7d' :: rest))))))) := by
    simp [dumpKey]
  rw [hre, skipWs_not_ws '"' _ (by decide)]
  dsimp only
  rw [if_pos rfl, pString_escape k.data _]
  simp only [bind, Option.bind]
  rw [skipWs_not_ws ':' _ (by decide)]
  dsimp only
  rw [if_pos rfl, pValue_skip f ' ' _ (by decide)]

/-- Helper: the parser inverts the printer, for all three mutual printers
simultaneously, by induction on the available fuel. -/
theorem parse_dump_all : ∀ f : Nat,
    (∀ (j : Json) (rest : List Char), jsize j ≤ f → restSafe rest →
      pValue f (dumpChars j ++ rest) = some (j, rest)) ∧
    (∀ (xs : JsonList) (acc : List Json) (rest : List Char), jsizeL xs ≤ f →
      pArrRest f (dumpListTail xs ++ (']' :: rest)) acc =
        some (jarr (acc ++ xs.toList), rest)) ∧
    (∀ (kvs : JsonObj) (acc : List (String × Json)) (rest : List Char), jsizeO kvs ≤ f →
      pObjRest f (dumpObjTail kvs ++ ('\x7d' :: rest)) acc =
        some (jobj (acc ++ kvs.toList), rest)) := by
  intro f
  induction f with
  | zero =>
    refine ⟨fun j rest hsz _ => absurd (le_trans (jsize_pos j) hsz) (by omega),
      fun xs acc rest hsz => absurd (le_trans (jsizeL_pos xs) hsz) (by omega),
      fun kvs acc rest hsz => absurd (le_trans (jsizeO_pos kvs) hsz) (by omega)⟩
  | succ f ih =>
    obtain ⟨ihV, ihA, ihO⟩ := ih
    refine ⟨fun j rest hsz hsafe => ?_, fun xs acc rest hsz => ?_,
      fun kvs acc rest hsz => ?_⟩
    · cases j with
      | null => exact pValue_null f rest
      | bool b =>
        cases b with
        | true => exact pValue_true f rest
        | false => exact pValue_false f rest
      | num i =>
        by_cases hneg : i < 0
        · obtain ⟨hne, hdig, hval⟩ := natDigits_spec i.natAbs
          have hdd : dumpChars (Json.num i) = '-' :: natDigits i.natAbs := by
            show intDigits i = _
            unfold intDigits
            rw [if_pos hneg]
          rw [hdd, List.cons_append, pValue_neg_num f i.natAbs rest hne hdig hsafe,
            hval, show -((i.natAbs : Int)) = i by omega]
        · obtain ⟨hne, hdig, hval⟩ := natDigits_spec i.toNat
          have hdd : dumpChars (Json.num i) = natDigits i.toNat := by
            show intDigits i = _
            unfold intDigits
            rw [if_neg hneg]
          obtain ⟨d, ds, hds⟩ : ∃ d ds, natDigits i.toNat = d :: ds := by
            cases h : natDigits i.toNat with
            | nil => exact absurd h hne
            | cons d ds => exact ⟨d, ds, rfl⟩
          rw [hdd, hds, pValue_pos_num f d ds rest (hds ▸ hdig) hsafe, ← hds, hval,
            Int.toNat_of_nonneg (by omega)]
      | str s =>
        rw [show dumpChars (Json.str s) = '"' :: (escapeChars s.data ++ ['"']) from rfl,
          pValue_str f s.data rest, stringMk_data]
      | arr xs =>
        cases xs with
        | nil =>
          rw [show dumpChars (Json.arr JsonList.nil) ++ rest = '[' :: ']' :: rest from rfl,
            pValue_arr_nil f rest]
        | cons x xs =>
          have hx := jsize_pos x
          have hxs := jsizeL_pos xs
          have hsz' : jsize (Json.arr (JsonList.cons x xs)) =
              1 + (1 + jsize x + jsizeL xs) := rfl
          rw [hsz'] at hsz
          rw [pValue_arr_cons f x xs rest,
            ihV x (dumpListTail xs ++ (']' :: rest)) (by omega) (restSafe_listTail xs rest)]
          dsimp only [Option.bind]
          rw [ihA xs [x] rest (by omega)]
          simp [jarr, JsonList.ofList, JsonList.toList, jlistOfListToList]
      | obj kvs =>
        cases kvs with
        | nil =>
          rw [show dumpChars (Json.obj JsonObj.nil) ++ rest = '\x7b' :: '\x7d' :: rest
              from rfl, pValue_obj_nil f rest]
        | cons k v kvs =>
          have hv := jsize_pos v
          have hkvs := jsizeO_pos kvs
          have hsz' : jsize (Json.obj (JsonObj.cons k v kvs)) =
              1 + (1 + jsize v + jsizeO kvs) := rfl
          rw [hsz'] at hsz
          rw [pValue_obj_cons f k v kvs rest,
            ihV v (dumpObjTail kvs ++ ('\x7d' :: rest)) (by omega)
              (restSafe_objTail kvs rest)]
          dsimp only [Option.bind]
          rw [ihO kvs [(k, v)] rest (by omega)]
          simp [jobj, JsonObj.ofList, JsonObj.toList, jobjOfListToList]
    · cases xs with
      | nil =>
        rw [show dumpListTail JsonList.nil ++ (']' :: rest) = ']' :: rest from rfl,
          pArrRest_nil f acc rest]
        simp [JsonList.toList]
      | cons x xs =>
        have hx := jsize_pos x
        have hxs := jsizeL_pos xs
        have hsz' : jsizeL (JsonList.cons x xs) = 1 + jsize x + jsizeL xs := rfl
        rw [hsz'] at hsz
        rw [pArrRest_cons f x xs acc rest,
          ihV x (dumpListTail xs ++ (']' :: rest)) (by omega) (restSafe_listTail xs rest)]
        dsimp only [Option.bind]
        rw [ihA xs (acc ++ [x]) rest (by omega)]
        simp [JsonList.toList]
    · cases kvs with
      | nil =>
        rw [show dumpObjTail JsonObj.nil ++ ('\x7d' :: rest) = '\x7d' :: rest from rfl,
          pObjRest_nil f acc rest]
        simp [JsonObj.toList]
      | cons k v kvs =>
        have hv := jsize_pos v
        have hkvs := jsizeO_pos kvs
        have hsz' : jsizeO (JsonObj.cons k v kvs) = 1 + jsize v + jsizeO kvs := rfl
        rw [hsz'] at hsz
        rw [pObjRest_cons f k v kvs acc rest,
          ihV v (dumpObjTail kvs ++ ('\x7d' :: rest)) (by omega)
            (restSafe_objTail kvs rest)]
        dsimp only [Option.bind]
        rw [ihO kvs (acc ++ [(k, v)]) rest (by omega)]
        simp [JsonObj.toList]

mutual
/-- Helper: the parser fuel bound is covered by twice the printed length. -/
theorem jsize_le_dump : ∀ j : Json, jsize j ≤ 2 * (dumpChars j).length
  | .null => by decide
  | .bool true => by decide
  | .bool false => by decide
  | .num i => by
    obtain ⟨c, cs, hd, _⟩ := intDigits_head i
    show 1 ≤ 2 * (intDigits i).length
    rw [hd]
    simp only [List.length_cons]
    omega
  | .str s => by
    show 1 ≤ 2 * ('"' :: (escapeChars s.data ++ ['"'])).length
    simp only [List.length_cons]
    omega
  | .arr .nil => by decide
  | .arr (.cons x xs) => by
    have hx := jsize_le_dump x
    have hxs := jsizeL_le_dumpTail xs
    show 1 + (1 + jsize x + jsizeL xs) ≤
      2 * ('[' :: ((dumpChars x ++ dumpListTail xs) ++ [']'])).length
    simp only [List.length_cons, List.length_append]
    omega
  | .obj .nil => by decide
  | .obj (.cons k v kvs) => by
    have hv := jsize_le_dump v
    have hkvs := jsizeO_le_dumpTail kvs
    show 1 + (1 + jsize v + jsizeO kvs) ≤
      2 * ('\x7b' :: ((dumpKey k ++ dumpChars v ++ dumpObjTail kvs) ++ ['\x7d'])).length
    simp only [List.length_cons, List.length_append]
    omega

theorem jsizeL_le_dumpTail : ∀ xs : JsonList,
    jsizeL xs ≤ 2 * (dumpListTail xs).length + 1
  | .nil => by decide
  | .cons x xs => by
    have hx := jsize_le_dump x
    have hxs := jsizeL_le_dumpTail xs
    show 1 + jsize x + jsizeL xs ≤
      2 * (',' :: ' ' :: (dumpChars x ++ dumpListTail xs)).length + 1
    simp only [List.length_cons, List.length_append]
    omega

theorem jsizeO_le_dumpTail : ∀ kvs : JsonObj,
    jsizeO kvs ≤ 2 * (dumpObjTail kvs).length + 1
  | .nil => by decide
  | .cons k v kvs => by
    have hv := jsize_le_dump v
    have hkvs := jsizeO_le_dumpTail kvs
    show 1 + jsize v + jsizeO kvs ≤
      2 * (',' :: ' ' :: (dumpKey k ++ dumpChars v ++ dumpObjTail kvs)).length + 1
    simp only [List.length_cons, List.length_append]
    omega
end

/-- Helper: `json.loads` recovers any value from its `json.dumps` output. -/
theorem loads_dumps (j : Json) : loads (dumpChars j) = some j := by
  have hb := jsize_le_dump j
  have h := (parse_dump_all (2 * (dumpChars j).length + 2)).1 j [] (by omega)
    (by intro c hc; simp at hc)
  rw [List.append_nil] at h
  unfold loads
  rw [h]
  rfl

/-- Helper: the consumer-side decode inverts the store-side dump of any
composite value. -/
theorem consumerDecode_dumps (v : Json) (hcomp : v.isComposite = true) :
    consumerDecode (Cell.val (Json.str (dumps v))) = Cell.val v := by
  cases v with
  | null => exact absurd hcomp (by decide)
  | bool b => exact absurd hcomp (by simp [Json.isComposite])
  | num i => exact absurd hcomp (by simp [Json.isComposite])
  | str s => exact absurd hcomp (by simp [Json.isComposite])
  | arr xs =>
    show consumerDecode (Cell.val (Json.str (String.mk (dumpChars (Json.arr xs))))) = _
    unfold consumerDecode
    dsimp only
    rw [if_pos]
    · rw [loads_dumps (Json.arr xs)]
    · right
      constructor
      · rfl
      · show (dumpChars (Json.arr xs)).getLast? = some ']'
        rw [show dumpChars (Json.arr xs) = ('[' :: dumpJsonList xs) ++ [']'] from by
          simp [dumpChars]]
        exact List.getLast?_concat _
  | obj kvs =>
    show consumerDecode (Cell.val (Json.str (String.mk (dumpChars (Json.obj kvs))))) = _
    unfold consumerDecode
    dsimp only
    rw [if_pos]
    · rw [loads_dumps (Json.obj kvs)]
    · left
      constructor
      · rfl
      · show (dumpChars (Json.obj kvs)).getLast? = some '\x7d'
        rw [show dumpChars (Json.obj kvs) = ('\x7b' :: dumpJsonObj kvs) ++ ['\x7d'] from by
          simp [dumpChars]]
        exact List.getLast?_concat _

/-- Helper: `addCols` keeps every column already accumulated. -/
theorem addCols_mem_left (acc ks : List String) (k : String) (hk : k ∈ acc) :
    k ∈ addCols acc ks := by
  induction ks generalizing acc with
  | nil => exact hk
  | cons c ks ih =>
    show k ∈ addCols (if acc.contains c then acc else acc ++ [c]) ks
    apply ih
    split_ifs
    · exact hk
    · exact List.mem_append_left _ hk

/-- Helper: `addCols` adds every new column of the record. -/
theorem addCols_mem_right (acc ks : List String) (k : String) (hk : k ∈ ks) :
    k ∈ addCols acc ks := by
  induction ks generalizing acc with
  | nil => cases hk
  | cons c ks ih =>
    show k ∈ addCols (if acc.contains c then acc else acc ++ [c]) ks
    rcases List.mem_cons.mp hk with rfl | hk2
    · apply addCols_mem_left
      split_ifs with hc
      · simpa using hc
      · exact List.mem_append_right _ (List.mem_singleton.mpr rfl)
    · exact ih _ hk2

/-- Helper: the column fold keeps every column already accumulated. -/
theorem foldl_addCols_pres (l : List Rec) (acc : List String) (k : String)
    (hk : k ∈ acc) :
    k ∈ l.foldl (fun a r2 => addCols a (r2.map Prod.fst)) acc := by
  induction l generalizing acc with
  | nil => exact hk
  | cons r2 l ih => exact ih _ (addCols_mem_left _ _ _ hk)

/-- Helper: the DataFrame column union contains every key of every
record. -/
theorem dfColumns_mem (data : List Rec) (r : Rec) (hr : r ∈ data) (k : String)
    (hk : k ∈ r.map Prod.fst) : k ∈ dfColumns data := by
  show k ∈ data.foldl (fun a r2 => addCols a (r2.map Prod.fst)) []
  have main : ∀ (l : List Rec), r ∈ l → ∀ acc : List String,
      k ∈ l.foldl (fun a r2 => addCols a (r2.map Prod.fst)) acc := by
    intro l
    induction l with
    | nil => intro h; cases h
    | cons r2 l ih =>
      intro h acc
      simp only [List.foldl_cons]
      rcases List.mem_cons.mp h with rfl | h2
      · exact foldl_addCols_pres l _ k (addCols_mem_right _ _ _ hk)
      · exact ih h2 _
  exact main data hr []

/-- Helper: looking a present column up in an aligned row recovers the
record's own value. -/
theorem alistLookup_alignRow (cols : List String) (r : Rec) (k : String)
    (hk : k ∈ cols) (v : Json) (hv : alistLookup k r = some v) :
    alistLookup k (alignRow cols r) = some (Cell.val v) := by
  induction cols with
  | nil => cases hk
  | cons c cols ih =>
    show alistLookup k ((c, match alistLookup c r with
        | some v2 => Cell.val v2
        | none => Cell.nan) :: alignRow cols r) = some (Cell.val v)
    by_cases hc : c = k
    · subst hc
      rw [alistLookup, if_pos rfl, hv]
    · rw [alistLookup, if_neg hc]
      have hk2 : k ∈ cols := by
        rcases List.mem_cons.mp hk with h1 | h2
        · exact absurd h1.symm hc
        · exact h2
      exact ih hk2

/-- Helper: the serialization map over a row rewrites exactly the cell a
lookup finds, and only by the per-column rule. -/
theorem alistLookup_serRow (rows : List Row) (l : Row) (k : String) (c : Cell)
    (hl : alistLookup k l = some c) :
    alistLookup k (l.map (fun kc =>
        if colComposite rows kc.1 then (kc.1, serializeCell kc.2) else kc)) =
      some (if colComposite rows k then serializeCell c else c) := by
  induction l with
  | nil => cases hl
  | cons kc l ih =>
    obtain ⟨k2, c2⟩ := kc
    simp only [List.map_cons]
    by_cases hk : k2 = k
    · subst hk
      rw [alistLookup, if_pos rfl] at hl
      injection hl with hl2
      subst hl2
      by_cases hcc : colComposite rows k2
      · rw [if_pos hcc, alistLookup, if_pos rfl, if_pos hcc]
      · rw [if_neg hcc, alistLookup, if_pos rfl, if_neg hcc]
    · rw [alistLookup, if_neg hk] at hl
      by_cases hcc : colComposite rows k2
      · rw [if_pos hcc, alistLookup, if_neg hk]
        exact ih hl
      · rw [if_neg hcc, alistLookup, if_neg hk]
        exact ih hl

/-- Helper: a successful association lookup means the key is among the
record's keys. -/
theorem alistLookup_mem_keys {α : Type} (k : String) (l : List (String × α)) (v : α)
    (h : alistLookup k l = some v) : k ∈ l.map Prod.fst := by
  induction l with
  | nil => cases h
  | cons p l ih =>
    obtain ⟨k2, v2⟩ := p
    rw [alistLookup] at h
    by_cases hk : k2 = k
    · subst hk
      simp
    · rw [if_neg hk] at h
      simp only [List.map_cons]
      exact List.mem_cons_of_mem _ (ih h)

/-- C8: composite fields are stored JSON-dumped and round-trip through the
consumer decode.  For every record list handed to `store_data`, every record
in it, and every field of that record holding a composite (list or dict)
value, the DataFrame row that `to_sql` receives carries at that column the
`json.dumps` string of the value, and applying the consumer-side decode of
`get_table_data` to that stored cell yields back exactly the original
structure. -/
theorem composite_field_roundtrip (data : List Rec) (n : Nat) (r : Rec)
    (hn : data[n]? = some r) (k : String) (v : Json)
    (hv : alistLookup k r = some v) (hcomp : v.isComposite = true) :
    ∃ row, (serializeDF data)[n]? = some row ∧
      alistLookup k row = some (Cell.val (Json.str (dumps v))) ∧
      consumerDecode (Cell.val (Json.str (dumps v))) = Cell.val v := by
  have hr : r ∈ data := List.getElem?_mem hn
  have hkcols : k ∈ dfColumns data :=
    dfColumns_mem data r hr k (alistLookup_mem_keys k r v hv)
  have halign : alistLookup k (alignRow (dfColumns data) r) = some (Cell.val v) :=
    alistLookup_alignRow (dfColumns data) r k hkcols v hv
  have hrowmem : alignRow (dfColumns data) r ∈ data.map (alignRow (dfColumns data)) :=
    List.mem_map_of_mem _ hr
  have hcc : colComposite (data.map (alignRow (dfColumns data))) k = true := by
    apply List.any_eq_true.mpr
    refine ⟨alignRow (dfColumns data) r, hrowmem, ?_⟩
    rw [halign]
    exact hcomp
  have hserc : serializeCell (Cell.val v) = Cell.val (Json.str (dumps v)) := by
    cases v with
    | null => exact absurd hcomp (by decide)
    | bool b => rfl
    | num i => rfl
    | str s => rfl
    | arr xs => rfl
    | obj kvs => rfl
  refine ⟨(alignRow (dfColumns data) r).map (fun kc =>
      if colComposite (data.map (alignRow (dfColumns data))) kc.1 then
        (kc.1, serializeCell kc.2) else kc), ?_, ?_, consumerDecode_dumps v hcomp⟩
  · rw [show serializeDF data = (data.map (alignRow (dfColumns data))).map
        (fun r2 => r2.map (fun kc =>
          if colComposite (data.map (alignRow (dfColumns data))) kc.1 then
            (kc.1, serializeCell kc.2) else kc)) from rfl,
      List.getElem?_map, List.getElem?_map, hn]
    rfl
  · rw [alistLookup_serRow (data.map (alignRow (dfColumns data)))
      (alignRow (dfColumns data) r) k (Cell.val v) halign, if_pos hcc, hserc]

theorem composite_field_roundtrip_witness :
    ∃ row,
      (serializeDF [[("a", jarr [Json.num 1, Json.null]), ("b", Json.str "x")]])[0]? =
        some row ∧
      alistLookup "a" row =
        some (Cell.val (Json.str (dumps (jarr [Json.num 1, Json.null])))) ∧
      consumerDecode (Cell.val (Json.str (dumps (jarr [Json.num 1, Json.null])))) =
        Cell.val (jarr [Json.num 1, Json.null]) :=
  composite_field_roundtrip
    [[("a", jarr [Json.num 1, Json.null]), ("b", Json.str "x")]] 0
    [("a", jarr [Json.num 1, Json.null]), ("b", Json.str "x")] rfl
    "a" (jarr [Json.num 1, Json.null]) rfl rfl

/-- C6: GraphQL envelope unwrapping.  On a validated GraphQL source,
normalizing the payload with a `countries` list under `data` yields exactly
that record list, and normalizing the payload with a `characters` paged
container yields exactly its `results` records. -/
theorem graphql_unwrap_examples :
    transform_data
      (jobj [("data", jobj [("countries", jarr [jobj [("name", Json.str "X")]])])])
      cfgGqlScratch = [[("name", Json.str "X")]] ∧
    transform_data
      (jobj [("data", jobj [("characters",
        jobj [("results", jarr [jobj [("name", Json.str "rick")]])])])])
      cfgGqlScratch = [[("name", Json.str "rick")]] := by
  exact ⟨by decide, by decide⟩
